import Mathlib

/-! startups-terminal: the scrape / extract / cache pipeline

A shallow embedding of `scraper.go`, `cache.go` and the `loadStartups` slice of
`render.go`, followed by the properties of the pipeline.

Conventions of the embedding

* A Go `string` is the list of its Unicode code points (`Str`).  Every string the
  pipeline handles comes out of a JSON decoder, hence is valid UTF-8; on such
  strings substring search, splitting and suffix removal agree with their
  byte-level Go counterparts.  `len` is the Go builtin: the number of *bytes* of
  the UTF-8 encoding.
* The browser (chromedp) and the file system are inputs: the outcome of every page
  evaluation and of reading the cache file is a parameter of the embedded function.
* `loadStartups` additionally returns the list of outside calls it made, so that
  "does not re-scrape" and "at most 20 fetches" are statements about its result.
-/

namespace StartupsTerminal

/-! ## Strings (`strings`, `unicode`, builtin `len`) -/

/-- A Go string, as the list of its code points. -/
abbrev Str := List Char

/-- Go builtin `len` on a string: the length in bytes of its UTF-8 encoding. -/
def len (s : Str) : Nat := (s.map Char.utf8Size).sum

/-- Go `unicode.IsSpace`: the Latin-1 spaces `\t \n \v \f \r`, space, U+0085, U+00A0,
and the code points of the Unicode property White_Space above Latin-1. -/
def IsSpace (c : Char) : Bool :=
  let n := c.toNat
  n = 0x09 || n = 0x0A || n = 0x0B || n = 0x0C || n = 0x0D || n = 0x20 ||
  n = 0x85 || n = 0xA0 || n = 0x1680 || (0x2000 ≤ n && n ≤ 0x200A) ||
  n = 0x2028 || n = 0x2029 || n = 0x202F || n = 0x205F || n = 0x3000

/-- Go `strings.TrimSpace`: all leading and trailing white space removed. -/
def TrimSpace (s : Str) : Str :=
  ((s.dropWhile IsSpace).reverse.dropWhile IsSpace).reverse

/-- Go `strings.Contains`: `substr` occurs in `s` as a contiguous block. -/
def Contains : Str → Str → Bool
  | [], substr => substr.isEmpty
  | c :: cs, substr => substr.isPrefixOf (c :: cs) || Contains cs substr

/-- Go `strings.TrimSuffix`: `s` without the trailing `suffix`, or `s` itself when it
does not end in `suffix`. -/
def TrimSuffix (s suffix : Str) : Str :=
  if suffix.isSuffixOf s then s.take (s.length - suffix.length) else s

/-- Go `strings.Split(s, sep)` for a one-character separator: the pieces between the
separators, `n + 1` pieces for `n` separators (so a single empty piece for `""`). -/
def Split : Str → Char → List Str
  | [], _ => [[]]
  | c :: cs, sep =>
    if c = sep then [] :: Split cs sep
    else match Split cs sep with
      | [] => [[c]]
      | piece :: pieces => (c :: piece) :: pieces

/-! ## Data model (`main.go`, `cache.go`) -/

/-- Go `time.Time`, as an instant in nanoseconds on the wall clock. -/
abbrev Time := Int

/-- Go `Startup` of `main.go`. -/
structure Startup where
  Name : Str
  Slug : Str
  Tagline : Str
  Description : Str
  BannerURL : Str
  LogoURL : Str
  WebsiteURL : Str
  JobsURL : Str
  Location : Str
  FundingStage : Str
  Industry : Str
  WorkType : Str
  TeamSize : Str
  FundingAnnouncement : Str
  LastFetched : Time
  FullyScraped : Bool
deriving DecidableEq, Repr

/-- Go `CompanyPreview` of `main.go`. -/
structure CompanyPreview where
  Slug : Str
  Name : Str
  Tagline : Str
deriving DecidableEq, Repr

/-- Go `Cache` of `cache.go`. -/
structure Cache where
  Startups : List Startup
  LastUpdated : Time
deriving DecidableEq, Repr

/-- A Go `error` value. -/
abbrev Error := String

/-! ## `ScrapeHomepage` (`scraper.go`) -/

/-- A decoded JSON value as far as `ScrapeHomepage` inspects it: a string or
something else. -/
inductive Value where
  | str (s : Str)
  | other
deriving DecidableEq, Repr

/-- An element of the `[]interface{}` the listing page evaluates to: a
`map[string]interface{}` or something else. -/
inductive Item where
  | object (fields : List (Str × Value))
  | other
deriving DecidableEq, Repr

/-- The Go expression `s, _ := m[key].(string)`: the string under `key`, and `""` when the
key is absent or holds no string. -/
def stringField (fields : List (Str × Value)) (key : Str) : Str :=
  match fields.lookup key with
  | some (Value.str s) => s
  | _ => []

/-- First loop of `ScrapeHomepage`: every item that is a map becomes a preview. -/
def toPreviews : List Item → List CompanyPreview
  | [] => []
  | Item.object fields :: items =>
    { Slug := stringField fields "slug".toList,
      Name := stringField fields "name".toList,
      Tagline := stringField fields "tagline".toList } :: toPreviews items
  | Item.other :: items => toPreviews items

/-- Second loop of `ScrapeHomepage`, with its two locals: `seen` (the keys of the Go map
that are set to `true`) and `unique`. -/
def uniqueLoop : List CompanyPreview → List Str → List CompanyPreview → List CompanyPreview
  | [], _, unique => unique
  | c :: cs, seen, unique =>
    if !seen.contains c.Slug && c.Slug != [] then
      uniqueLoop cs (c.Slug :: seen) (unique ++ [c])
    else
      uniqueLoop cs seen unique

/-- The deduplication step of `ScrapeHomepage`: `seen` starts empty, `unique` starts empty. -/
def uniquePreviews (companies : List CompanyPreview) : List CompanyPreview :=
  uniqueLoop companies [] []

/-- Go `ScrapeHomepage`; `page` is the outcome of `chromedp.Run` on the listing page. -/
def ScrapeHomepage (page : Except Error (List Item)) : Except Error (List CompanyPreview) :=
  match page with
  | .error err => .error err
  | .ok result => .ok (uniquePreviews (toPreviews result))

/-! ## `parseCompanyData` and `ScrapeCompany` (`scraper.go`) -/

/-- One entry of `links`: the text of the anchor (trimmed by the page script) and its `href`. -/
structure Link where
  text : Str
  href : Str
deriving DecidableEq, Repr

/-- One entry of `images`. -/
structure Image where
  src : Str
  alt : Str
deriving DecidableEq, Repr

/-- The map a company page evaluates to, with the four keys `parseCompanyData` reads. -/
structure RawDetailContent where
  title : Str
  bodyText : Str
  links : List Link
  images : List Image
deriving DecidableEq, Repr

/-- The rest of `s` after the literal `lit`, when `s` starts with it. -/
def after : Str → Str → Option Str
  | [], s => some s
  | _ :: _, [] => none
  | p :: ps, c :: cs => if p = c then after ps cs else none

/-- Regex class `[\d.]`. -/
def isAmountChar (c : Char) : Bool := c.isDigit || c = '.'

/-- Regex class `[MBK]`. -/
def isMagnitude (c : Char) : Bool := c = 'M' || c = 'B' || c = 'K'

/-- Regex tail ` on .+$` (`.` is any character but the line feed). -/
def onTail (s : Option Str) : Bool :=
  match s with
  | none => false
  | some s =>
    match after " on ".toList s with
    | none => false
    | some t => !t.isEmpty && t.all (fun c => c != '\n')

/-- Regex tail `(Seed|Series [A-Z]|Pre-Seed|Venture) on .+$`. -/
def roundTail (s : Str) : Bool :=
  onTail (after "Seed".toList s) ||
  (match after "Series ".toList s with
   | some (c :: t) => c.isUpper && onTail (some t)
   | _ => false) ||
  onTail (after "Pre-Seed".toList s) ||
  onTail (after "Venture".toList s)

/-- `fundingAnnouncementRegex.MatchString`, for the anchored pattern
`^Raised \$[\d.]+[MBK]+ (Seed|Series [A-Z]|Pre-Seed|Venture) on .+$`.
The classes `[\d.]`, `[MBK]` and the blank that follows are pairwise disjoint, so each of
the two `+` can only take its maximal run. -/
def fundingAnnouncementRegex (line : Str) : Bool :=
  match after "Raised $".toList line with
  | none => false
  | some s =>
    let amount := s.takeWhile isAmountChar
    let s := s.dropWhile isAmountChar
    let magnitude := s.takeWhile isMagnitude
    match s.dropWhile isMagnitude with
    | ' ' :: t => !amount.isEmpty && !magnitude.isEmpty && roundTail t
    | _ => false

/-- Regex class `\w` of Go (ASCII only), which decides `\b`. -/
def isWordChar (c : Char) : Bool := c.isAlphanum || c = '_'

/-- Regex class `[-–]`. -/
def isDash (c : Char) : Bool := c = '-' || c = '–'

/-- The pattern `(\d+[-–]\d+)\b` tried at the start of `s`: the text of group 1.
The first `\d+` must take all digits (a dash has to follow), the second one too (after
fewer digits there is no word boundary). -/
def rangeHere (s : Str) : Option Str :=
  let first := s.takeWhile Char.isDigit
  match s.dropWhile Char.isDigit with
  | [] => none
  | dash :: t =>
    let second := t.takeWhile Char.isDigit
    let boundary :=
      match t.dropWhile Char.isDigit with
      | [] => true
      | c :: _ => !isWordChar c
    if !first.isEmpty && isDash dash && !second.isEmpty && boundary then
      some (first ++ dash :: second)
    else none

/-- Leftmost match of `\b(\d+[-–]\d+)\b` in the text that follows `prev` (`none` at the start
of the text): the start positions are tried from left to right. -/
def rangeFrom : Option Char → Str → Option Str
  | _, [] => none
  | prev, c :: cs =>
    let wordBefore := match prev with
      | none => false
      | some p => isWordChar p
    if wordBefore != isWordChar c then
      match rangeHere (c :: cs) with
      | some m => some m
      | none => rangeFrom (some c) cs
    else rangeFrom (some c) cs

/-- `teamSizeRegex.FindStringSubmatch(bodyText)` for `\b(\d+[-–]\d+)\b`: `match[1]` of the
leftmost match, if there is a match. -/
def teamSizeRegex (bodyText : Str) : Option Str := rangeFrom none bodyText

/-- Body of the `for _, link := range links` loop. -/
def linkStep (startup : Startup) (link : Link) : Startup :=
  let text := TrimSpace link.text
  let href := link.href
  let startup :=
    if text = "Visit Website".toList then { startup with WebsiteURL := href }
    else if text = "View Jobs".toList then { startup with JobsURL := href }
    else startup
  if Contains href "/categories/locations/".toList then { startup with Location := text }
  else if Contains href "/categories/stages/".toList then { startup with FundingStage := text }
  else if Contains href "/categories/industries/".toList then { startup with Industry := text }
  else if Contains href "/categories/work-type/".toList then { startup with WorkType := text }
  else startup

/-- The `for _, link := range links` loop. -/
def linksLoop (startup : Startup) (links : List Link) : Startup :=
  links.foldl linkStep startup

/-- The tagline filter of the line loop: the condition whose branch is `continue`. -/
def taglineSkip (line : Str) : Bool :=
  Contains line "Visit".toList ||
  Contains line "View".toList ||
  Contains line "Raised".toList ||
  Contains line "Backed by".toList ||
  Contains line "Get Updates".toList ||
  len line == 0 ||
  line == "·".toList

/-- The first `if` of the line loop after the name test: the funding announcement. -/
def fundingStep (startup : Startup) (line : Str) : Startup :=
  if startup.FundingAnnouncement == [] && fundingAnnouncementRegex line then
    { startup with FundingAnnouncement := line }
  else startup

/-- The last `if` of the line loop; the third component tells whether the loop breaks. -/
def descriptionStep (foundName : Bool) (startup : Startup) (line : Str) :
    Bool × Startup × Bool :=
  if startup.Description == [] &&
      decide (len line > 100) &&
      !Contains line "Raised".toList &&
      !Contains line "Posted on".toList &&
      !Contains line "Explore similar".toList then
    (foundName, { startup with Description := line }, true)
  else (foundName, startup, false)

/-- Body of the `for _, line := range lines` loop: the new `foundName`, the new `startup`,
and whether the loop breaks (`false`: it goes on with the next line). -/
def lineStep (foundName : Bool) (startup : Startup) (raw : Str) : Bool × Startup × Bool :=
  let line := TrimSpace raw
  if line = startup.Name then (true, startup, false)
  else
    let startup := fundingStep startup line
    if foundName && startup.Tagline == [] then
      if taglineSkip line then (foundName, startup, false)
      else if decide (len line > 1) && decide (len line < 100) then
        (foundName, { startup with Tagline := line }, false)
      else descriptionStep foundName startup line
    else descriptionStep foundName startup line

/-- The `for _, line := range lines` loop. -/
def linesLoop : List Str → Bool → Startup → Startup
  | [], _, startup => startup
  | raw :: lines, foundName, startup =>
    match lineStep foundName startup raw with
    | (_, startup, true) => startup
    | (foundName, startup, false) => linesLoop lines foundName startup

/-- The `Startup` literal at the top of `parseCompanyData`; the fields it does not name
have their zero value. -/
def newStartup (now : Time) (slug : Str) (title : Str) : Startup :=
  { Name := TrimSuffix title " | startups.gallery".toList,
    Slug := slug,
    Tagline := [], Description := [], BannerURL := [], LogoURL := [], WebsiteURL := [],
    JobsURL := [], Location := [], FundingStage := [], Industry := [], WorkType := [],
    TeamSize := [], FundingAnnouncement := [],
    LastFetched := now,
    FullyScraped := true }

/-- The statement `if len(images) > 0 { ... }`. -/
def bannerStep (startup : Startup) (images : List Image) : Startup :=
  match images with
  | img :: _ => { startup with BannerURL := img.src }
  | [] => startup

/-- The statement `if len(images) > 1 { ... }`. -/
def logoStep (startup : Startup) (images : List Image) : Startup :=
  match images with
  | _ :: img :: _ => { startup with LogoURL := img.src }
  | _ => startup

/-- The statement `if match := teamSizeRegex.FindStringSubmatch(bodyText); len(match) > 1`. -/
def teamSizeStep (startup : Startup) (bodyText : Str) : Startup :=
  match teamSizeRegex bodyText with
  | some m => { startup with TeamSize := m }
  | none => startup

/-- Go `parseCompanyData`; `now` is the value of `time.Now()`. -/
def parseCompanyData (now : Time) (slug : Str) (result : RawDetailContent) : Startup :=
  let bodyText := result.bodyText
  let title := result.title
  let links := result.links
  let images := result.images
  let startup := newStartup now slug title
  let startup := bannerStep startup images
  let startup := logoStep startup images
  let startup := linksLoop startup links
  let lines := Split bodyText '\n'
  let startup := linesLoop lines false startup
  teamSizeStep startup bodyText

/-- Go `ScrapeCompany`; `page` is the outcome of `chromedp.Run` on the company page. -/
def ScrapeCompany (page : Except Error RawDetailContent) (now : Time) (slug : Str) :
    Except Error Startup :=
  match page with
  | .error err => .error err
  | .ok result => .ok (parseCompanyData now slug result)

/-! ## `LoadCache` (`cache.go`) and `loadStartups` (`render.go`) -/

/-- Go `LoadCache`: `readFile` is the outcome of `os.ReadFile`, `unmarshal` that of
`json.Unmarshal` on the bytes read. -/
def LoadCache {Data : Type} (readFile : Except Error Data)
    (unmarshal : Data → Except Error Cache) : Except Error Cache :=
  match readFile with
  | .error err => .error err
  | .ok data =>
    match unmarshal data with
    | .error err => .error err
    | .ok cache => .ok cache

/-- Smallest `time.Duration` (an `int64` count of nanoseconds). -/
def minDuration : Int := -9223372036854775808

/-- Largest `time.Duration`. -/
def maxDuration : Int := 9223372036854775807

/-- Go `Time.Sub`: the difference `t - u` as a `Duration`, saturated at the smallest and
largest `Duration`. -/
def Sub (t u : Time) : Int :=
  if t - u < minDuration then minDuration
  else if t - u > maxDuration then maxDuration
  else t - u

/-- Go `time.Since(t)` read at the instant `now`. -/
def Since (now t : Time) : Int := Sub now t

/-- Go `time.Hour`, in nanoseconds. -/
def Hour : Int := 3600 * 1000000000

/-- Go `time.Minute`. -/
def Minute : Int := 60 * 1000000000

/-- Go `time.Second`. -/
def Second : Int := 1000000000

/-- What `loadStartups` finds outside the program. -/
structure World where
  /-- Outcome of `LoadCache()`. -/
  cache : Except Error Cache
  /-- The clock when `time.Since` is evaluated. -/
  now : Time
  /-- Outcome of the listing-page evaluation inside `ScrapeHomepage`. -/
  homepage : Except Error (List Item)
  /-- Outcome of the company-page evaluation inside `ScrapeCompany`, in iteration `i` of the
  loop, for the slug asked for. -/
  company : Nat → Str → Except Error RawDetailContent
  /-- The clock (`time.Now()`) inside `parseCompanyData` in iteration `i`. -/
  fetchedAt : Nat → Time

/-- A call `loadStartups` makes to the scraper or the cache store. -/
inductive Call where
  | scrapeHomepage
  | scrapeCompany (slug : Str)
  | saveCache (startups : List Startup)
deriving DecidableEq, Repr

/-- The `for i, preview := range previews` loop of `loadStartups`, with the loop index `i`,
the local `startups`, and the calls made so far. -/
def refreshLoop (w : World) :
    List CompanyPreview → Nat → List Startup → List Call → List Startup × List Call
  | [], _, startups, calls => (startups, calls)
  | preview :: previews, i, startups, calls =>
    if i ≥ 20 then (startups, calls)
    else
      match ScrapeCompany (w.company i preview.Slug) (w.fetchedAt i) preview.Slug with
      | .error _ =>
        refreshLoop w previews (i + 1) startups (calls ++ [Call.scrapeCompany preview.Slug])
      | .ok startup =>
        let startup :=
          if startup.Tagline = [] then { startup with Tagline := preview.Tagline }
          else startup
        refreshLoop w previews (i + 1) (startups ++ [startup])
          (calls ++ [Call.scrapeCompany preview.Slug])

/-- The part of `loadStartups` after the cache test: list the previews, fetch at most 20
of them, save. -/
def refresh (w : World) : List Startup × List Call :=
  match ScrapeHomepage w.homepage with
  | .error _ => ([], [Call.scrapeHomepage])
  | .ok previews =>
    let r := refreshLoop w previews 0 [] [Call.scrapeHomepage]
    (r.1, r.2 ++ [Call.saveCache r.1])

/-- Go `loadStartups`: the `startups` of the message it returns, and the calls it made. -/
def loadStartups (w : World) : List Startup × List Call :=
  match w.cache with
  | .ok cache =>
    if Since w.now cache.LastUpdated < 24 * Hour then (cache.Startups, [])
    else refresh w
  | .error _ => refresh w

/-! ## Reading of the line scan, for the statements about `parseCompanyData` -/

/-- The body lines as the line loop sees them: split at line feeds, each one trimmed. -/
def trimmedLines (bodyText : Str) : List Str :=
  (Split bodyText '\n').map TrimSpace

/-- The lines that come after the first line equal to `name`; none when no line is. -/
def afterName (name : Str) : List Str → List Str
  | [] => []
  | l :: ls => if l = name then ls else afterName name ls

/-- A line the tagline search accepts: it is not the name, not empty, not the lone
separator, holds no boilerplate marker, and its length in bytes is strictly between 1
and 100. -/
def taglineCandidate (name line : Str) : Bool :=
  line != name &&
  line != [] &&
  line != "·".toList &&
  !Contains line "Visit".toList &&
  !Contains line "View".toList &&
  !Contains line "Raised".toList &&
  !Contains line "Backed by".toList &&
  !Contains line "Get Updates".toList &&
  decide (1 < len line) && decide (len line < 100)

/-- The first tagline candidate among the lines after the first name line, `""` if none. -/
def firstTagline (name : Str) (lines : List Str) : Str :=
  ((afterName name lines).find? (taglineCandidate name)).getD []

/-- The first line, other than the name, that matches the funding pattern, `""` if none. -/
def firstFunding (name : Str) (lines : List Str) : Str :=
  (lines.find? (fun l => l != name && fundingAnnouncementRegex l)).getD []

/-- A long paragraph: more than 100 bytes and none of the three excluded markers. -/
def longParagraph (line : Str) : Bool :=
  decide (100 < len line) &&
  !Contains line "Raised".toList &&
  !Contains line "Posted on".toList &&
  !Contains line "Explore similar".toList

/-- The tagline filter passes over `line`: the name line is among the lines `before`, no
tagline candidate has come since, and `line` holds one of the four button markers. -/
def passedOver (name : Str) (before : List Str) (line : Str) : Bool :=
  decide (name ∈ before) && firstTagline name before == [] &&
  (Contains line "Visit".toList || Contains line "View".toList ||
   Contains line "Backed by".toList || Contains line "Get Updates".toList)

/-- The line `line`, met after the lines `before`, is taken as the description: a long
paragraph that is not the name and that the tagline filter does not pass over. -/
def takenAsDescription (name : Str) (before : List Str) (line : Str) : Bool :=
  line != name && longParagraph line && !passedOver name before line

/-- The first line taken as the description, in the lines that follow `before`. -/
def firstDescription (name : Str) : List Str → List Str → Option Str
  | _, [] => none
  | before, l :: ls =>
    if takenAsDescription name before l then some l
    else firstDescription name (before ++ [l]) ls

/-- The lines the scan visits, among those that follow `before`: all lines up to and
including the first one taken as the description. -/
def scanned (name : Str) : List Str → List Str → List Str
  | _, [] => []
  | before, l :: ls =>
    if takenAsDescription name before l then [l]
    else l :: scanned name (before ++ [l]) ls

/-! ## Reading of the anchor loop -/

/-- The href takes the `locations` branch of the `if … else if` chain. -/
def isLocationHref (href : Str) : Bool :=
  Contains href "/categories/locations/".toList

/-- The href takes the `stages` branch: it holds the stages fragment and not the
locations fragment. -/
def isStageHref (href : Str) : Bool :=
  !Contains href "/categories/locations/".toList &&
  Contains href "/categories/stages/".toList

/-- The href takes the `industries` branch. -/
def isIndustryHref (href : Str) : Bool :=
  !Contains href "/categories/locations/".toList &&
  !Contains href "/categories/stages/".toList &&
  Contains href "/categories/industries/".toList

/-- The href takes the `work-type` branch. -/
def isWorkTypeHref (href : Str) : Bool :=
  !Contains href "/categories/locations/".toList &&
  !Contains href "/categories/stages/".toList &&
  !Contains href "/categories/industries/".toList &&
  Contains href "/categories/work-type/".toList

/-- The trimmed text of the last anchor, in document order, whose href satisfies `p`;
`""` when there is none. -/
def lastAnchorText (p : Str → Bool) (links : List Link) : Str :=
  ((links.reverse.find? (fun k => p k.href)).map (fun k => TrimSpace k.text)).getD []

/-! ## The worked example of the extractor -/

/-- Go `strings.Join`. -/
def Join : List Str → Str → Str
  | [], _ => []
  | [a], _ => a
  | a :: b :: rest, sep => a ++ (sep ++ Join (b :: rest) sep)

/-- No digit, dash, digit in a row: the text holds no digit range `\d[-–]\d`. -/
def noDigitRange : Str → Bool
  | a :: b :: c :: rest =>
    !(a.isDigit && isDash b && c.isDigit) && noDigitRange (b :: c :: rest)
  | _ => true

/-- The body text of the example: six lines joined by line feeds, the fifth one being the
paragraph `P`. -/
def acmeBody (P : Str) : Str :=
  Join ["Acme Inc".toList, "We build widgets for everyone".toList, "Visit Website".toList,
    "Raised $2M Seed on Jan 2024".toList, P, "11-50 employees".toList] "\n".toList

/-! ## Auxiliary definitions of the proofs -/

/-- What the line loop holds after the lines `before`, none of which ended the scan. -/
def LoopInv (n : Str) (before : List Str) (fn : Bool) (st : Startup) : Prop :=
  st.Name = n ∧ fn = decide (n ∈ before) ∧ st.Tagline = firstTagline n before ∧
    st.FundingAnnouncement = firstFunding n before ∧ st.Description = []

/-- One iteration of the refresh loop as a partial map: the record appended for the preview
`ip.2` at index `ip.1`, if its fetch succeeds. -/
def fetchedRecord (w : World) (ip : Nat × CompanyPreview) : Option Startup :=
  match ScrapeCompany (w.company ip.1 ip.2.Slug) (w.fetchedAt ip.1) ip.2.Slug with
  | .error _ => none
  | .ok startup =>
    some (if startup.Tagline = [] then { startup with Tagline := ip.2.Tagline } else startup)

/-- Whether the detail fetch of iteration `ip.1` for the preview `ip.2` succeeds. -/
def fetchSucceeds (w : World) (ip : Nat × CompanyPreview) : Bool :=
  match w.company ip.1 ip.2.Slug with
  | .ok _ => true
  | .error _ => false

/-- Whether a call is a detail fetch. -/
def Call.isScrapeCompany : Call → Bool
  | Call.scrapeCompany _ => true
  | _ => false

/-- The lines of the example before the paragraph. -/
def acmeHead : List Str :=
  ["Acme Inc".toList, "We build widgets for everyone".toList, "Visit Website".toList,
    "Raised $2M Seed on Jan 2024".toList]

/-! ## Sample inputs -/

/-- A company page of the company "Acme" with the given body text, no anchors, no images. -/
def acmePage (bodyText : Str) : RawDetailContent :=
  { title := "Acme | startups.gallery".toList, bodyText := bodyText, links := [], images := [] }

/-- A paragraph of 101 characters. -/
def acmeParagraph : Str :=
  "Acme builds modular widget platforms that let teams assemble, test and ship hardware faster than ever".toList

/-- A paragraph of 101 characters that starts with a blank. -/
def paddedParagraph : Str := ' ' :: List.replicate 100 'a'

/-- The page of the worked example, over the paragraph `P`. -/
def acmeIncPage (P : Str) : RawDetailContent :=
  { title := "Acme Inc | startups.gallery".toList, bodyText := acmeBody P,
    links := [⟨"Visit Website".toList, "https://acme.example".toList⟩], images := [] }

/-- The page of the worked example with further lines after the paragraph. -/
def acmeIncLongerPage : RawDetailContent :=
  { title := "Acme Inc | startups.gallery".toList,
    bodyText := acmeBody acmeParagraph ++ "\nRaised $9M Series B on Mar 2025\n".toList
      ++ List.replicate 150 'z',
    links := [], images := [] }

/-- A page with category anchors: two location anchors, one stage, one industry, one
work type, and the two button anchors. -/
def anchorsPage : RawDetailContent :=
  { title := "Acme | startups.gallery".toList, bodyText := "Acme".toList,
    links :=
      [⟨"Visit Website".toList, "https://acme.example".toList⟩,
       ⟨"Berlin".toList, "https://startups.gallery/categories/locations/berlin".toList⟩,
       ⟨"Seed".toList, "https://startups.gallery/categories/stages/seed".toList⟩,
       ⟨" Remote\n".toList, "https://startups.gallery/categories/locations/remote".toList⟩,
       ⟨"Hardware".toList, "https://startups.gallery/categories/industries/hardware".toList⟩,
       ⟨"Hybrid".toList, "https://startups.gallery/categories/work-type/hybrid".toList⟩,
       ⟨"View Jobs".toList, "https://acme.example/jobs".toList⟩],
    images := [] }

/-- A line of 106 characters that holds the marker "Visit". -/
def visitLine : Str := "Visit ".toList ++ List.replicate 100 'a'

/-- A line of 60 characters and 120 bytes. -/
def accentLine : Str := List.replicate 60 'é'

/-- A listing item with the three string fields. -/
def listingItem (slug name tagline : String) : Item :=
  Item.object [("slug".toList, Value.str slug.toList), ("name".toList, Value.str name.toList),
    ("tagline".toList, Value.str tagline.toList)]

/-- Five previews; the detail fetches of the second and the fourth fail; the page of the
first has a tagline line, the pages of the third and fifth have none. There is no cache. -/
def fiveWorld : World :=
  { cache := .error "open startups_cache.json: no such file or directory",
    now := 0,
    homepage := .ok [listingItem "a" "A" "first", listingItem "b" "B" "second",
      listingItem "c" "C" "third", listingItem "d" "D" "fourth", listingItem "e" "E" "fifth"],
    company := fun i _ =>
      if i = 1 ∨ i = 3 then .error "context deadline exceeded"
      else if i = 0 then .ok (acmePage "Acme\nWidgets for everyone".toList)
      else .ok (acmePage "Welcome".toList),
    fetchedAt := fun i => 1000 + i }

/-- The previews of `fiveWorld`. -/
def fivePreviews : List CompanyPreview :=
  [⟨"a".toList, "A".toList, "first".toList⟩, ⟨"b".toList, "B".toList, "second".toList⟩,
   ⟨"c".toList, "C".toList, "third".toList⟩, ⟨"d".toList, "D".toList, "fourth".toList⟩,
   ⟨"e".toList, "E".toList, "fifth".toList⟩]

/-- Twenty-five previews with the slugs `s`, `ss`, `sss`, …; every detail fetch succeeds; the
cache is one week old. -/
def manyWorld : World :=
  { cache := .ok { Startups := [], LastUpdated := 0 },
    now := 7 * 24 * Hour,
    homepage := .ok ((List.range 25).map (fun i =>
      Item.object [("slug".toList, Value.str (List.replicate (i + 1) 's'))])),
    company := fun _ _ => .ok (acmePage "Acme".toList),
    fetchedAt := fun _ => 7 * 24 * Hour }

/-- The previews of `manyWorld`. -/
def manyPreviews : List CompanyPreview :=
  (List.range 25).map (fun i => ⟨List.replicate (i + 1) 's', [], []⟩)

/-- A cache that is 23 hours and 59 minutes old. -/
def freshWorld : World :=
  { fiveWorld with
    cache := .ok { Startups := [newStartup 0 "a".toList "A".toList], LastUpdated := 1000 },
    now := 1000 + (23 * Hour + 59 * Minute) }

/-! # Theorems -/

/-! ## Deduplication of the previews -/

theorem uniqueLoop_acc (cs : List CompanyPreview) (seen : List Str)
    (unique : List CompanyPreview) :
    uniqueLoop cs seen unique = unique ++ uniqueLoop cs seen [] := by
  induction cs generalizing seen unique with
  | nil => simp [uniqueLoop]
  | cons c cs ih =>
    unfold uniqueLoop
    split
    · rw [ih, ih (c.Slug :: seen) ([] ++ [c])]; simp
    · exact ih seen unique

theorem uniqueLoop_cons (c : CompanyPreview) (cs : List CompanyPreview) (seen : List Str) :
    uniqueLoop (c :: cs) seen [] =
      if c.Slug ∉ seen ∧ c.Slug ≠ [] then c :: uniqueLoop cs (c.Slug :: seen) []
      else uniqueLoop cs seen [] := by
  rw [uniqueLoop]
  by_cases h1 : c.Slug ∈ seen <;> by_cases h2 : c.Slug = [] <;>
    simp [h1, h2, uniqueLoop_acc cs (c.Slug :: seen) [c]]

theorem uniqueLoop_mem {cs : List CompanyPreview} {seen : List Str} {b : CompanyPreview}
    (hb : b ∈ uniqueLoop cs seen []) : b.Slug ≠ [] ∧ b.Slug ∉ seen ∧ b ∈ cs := by
  induction cs generalizing seen with
  | nil => simp [uniqueLoop] at hb
  | cons c cs ih =>
    rw [uniqueLoop_cons] at hb
    split at hb
    · rename_i h
      rcases List.mem_cons.1 hb with rfl | hb
      · exact ⟨h.2, h.1, List.mem_cons_self _ _⟩
      · obtain ⟨h1, h2, h3⟩ := ih hb
        exact ⟨h1, fun hm => h2 (List.mem_cons_of_mem _ hm), List.mem_cons_of_mem _ h3⟩
    · obtain ⟨h1, h2, h3⟩ := ih hb
      exact ⟨h1, h2, List.mem_cons_of_mem _ h3⟩

theorem uniqueLoop_nodup (cs : List CompanyPreview) (seen : List Str) :
    ((uniqueLoop cs seen []).map CompanyPreview.Slug).Nodup := by
  induction cs generalizing seen with
  | nil => simp [uniqueLoop]
  | cons c cs ih =>
    rw [uniqueLoop_cons]
    split
    · rw [List.map_cons, List.nodup_cons]
      refine ⟨?_, ih _⟩
      intro hm
      obtain ⟨b, hb, hbs⟩ := List.mem_map.1 hm
      exact (uniqueLoop_mem hb).2.1 (by rw [hbs]; exact List.mem_cons_self _ _)
    · exact ih _

theorem uniqueLoop_complete {cs : List CompanyPreview} {seen : List Str} {s : Str}
    (hs : s ∈ cs.map CompanyPreview.Slug) (hne : s ≠ []) (hseen : s ∉ seen) :
    s ∈ (uniqueLoop cs seen []).map CompanyPreview.Slug := by
  induction cs generalizing seen with
  | nil => simp at hs
  | cons c cs ih =>
    rw [uniqueLoop_cons]
    by_cases hc : c.Slug = s
    · subst hc
      rw [if_pos ⟨hseen, hne⟩]
      simp
    · have hs' : s ∈ cs.map CompanyPreview.Slug := by
        rcases List.mem_cons.1 hs with h | h
        · exact absurd h.symm hc
        · exact h
      split
      · rw [List.map_cons]
        refine List.mem_cons_of_mem _ (ih hs' ?_)
        intro hm
        rcases List.mem_cons.1 hm with h | h
        · exact hc h.symm
        · exact hseen h
      · exact ih hs' hseen

/-- Every kept preview has a slug different from the slug of a preview the loop passes
over or has just kept. -/
theorem uniqueLoop_tail_slug {c : CompanyPreview} {cs : List CompanyPreview}
    (seen : List Str) {b : CompanyPreview}
    (hb : b ∈ (if c.Slug ∉ seen ∧ c.Slug ≠ [] then uniqueLoop cs (c.Slug :: seen) []
      else uniqueLoop cs seen [])) : c.Slug ≠ b.Slug := by
  split at hb
  · intro h
    exact (uniqueLoop_mem hb).2.1 (by rw [h]; exact List.mem_cons_self _ _)
  · rename_i hc
    obtain ⟨h1, h2, _⟩ := uniqueLoop_mem hb
    intro h
    apply hc
    rw [h]
    exact ⟨h2, h1⟩

theorem uniqueLoop_first {cs : List CompanyPreview} {seen : List Str} {b : CompanyPreview}
    (hb : b ∈ uniqueLoop cs seen []) :
    cs.find? (fun x => decide (x.Slug = b.Slug)) = some b := by
  induction cs generalizing seen with
  | nil => simp [uniqueLoop] at hb
  | cons c cs ih =>
    rw [uniqueLoop_cons] at hb
    by_cases hk : c.Slug ∉ seen ∧ c.Slug ≠ []
    · rw [if_pos hk] at hb
      rcases List.mem_cons.1 hb with rfl | hb
      · simp
      · have hne : c.Slug ≠ b.Slug := uniqueLoop_tail_slug seen (by rw [if_pos hk]; exact hb)
        rw [List.find?_cons_of_neg _ (by simpa using hne)]
        exact ih hb
    · rw [if_neg hk] at hb
      have hne : c.Slug ≠ b.Slug := uniqueLoop_tail_slug seen (by rw [if_neg hk]; exact hb)
      rw [List.find?_cons_of_neg _ (by simpa using hne)]
      exact ih hb

theorem uniqueLoop_order (cs : List CompanyPreview) (seen : List Str) :
    (uniqueLoop cs seen []).Pairwise (fun a b =>
      cs.findIdx (fun x => decide (x.Slug = a.Slug))
        < cs.findIdx (fun x => decide (x.Slug = b.Slug))) := by
  induction cs generalizing seen with
  | nil => simp [uniqueLoop]
  | cons c cs ih =>
    have shift : ∀ b : CompanyPreview, c.Slug ≠ b.Slug →
        (c :: cs).findIdx (fun x => decide (x.Slug = b.Slug))
          = cs.findIdx (fun x => decide (x.Slug = b.Slug)) + 1 := by
      intro b hne
      simp [List.findIdx_cons, hne]
    rw [uniqueLoop_cons]
    by_cases hk : c.Slug ∉ seen ∧ c.Slug ≠ []
    · rw [if_pos hk, List.pairwise_cons]
      have hne : ∀ b ∈ uniqueLoop cs (c.Slug :: seen) [], c.Slug ≠ b.Slug := fun b hb =>
        uniqueLoop_tail_slug seen (by rw [if_pos hk]; exact hb)
      constructor
      · intro b hb
        rw [shift b (hne b hb)]
        simp [List.findIdx_cons]
      · refine (ih (c.Slug :: seen)).imp_of_mem ?_
        intro a b ha hb hlt
        rw [shift a (hne a ha), shift b (hne b hb)]
        exact Nat.succ_lt_succ hlt
    · rw [if_neg hk]
      have hne : ∀ b ∈ uniqueLoop cs seen [], c.Slug ≠ b.Slug := fun b hb =>
        uniqueLoop_tail_slug seen (by rw [if_neg hk]; exact hb)
      refine (ih seen).imp_of_mem ?_
      intro a b ha hb hlt
      rw [shift a (hne a ha), shift b (hne b hb)]
      exact Nat.succ_lt_succ hlt

theorem countP_slug_eq_one {l : List CompanyPreview} {s : Str}
    (hnd : (l.map CompanyPreview.Slug).Nodup) (hs : s ∈ l.map CompanyPreview.Slug) :
    l.countP (fun x => decide (x.Slug = s)) = 1 := by
  induction l with
  | nil => simp at hs
  | cons c l ih =>
    rw [List.map_cons, List.nodup_cons] at hnd
    by_cases hc : c.Slug = s
    · subst hc
      have h0 : l.countP (fun x => decide (x.Slug = c.Slug)) = 0 := by
        rw [List.countP_eq_zero]
        intro x hx hxs
        exact hnd.1 (List.mem_map.2 ⟨x, hx, by simpa using hxs⟩)
      simp [List.countP_cons, h0]
    · have hs' : s ∈ l.map CompanyPreview.Slug := by
        rcases List.mem_cons.1 hs with h | h
        · exact absurd h.symm hc
        · exact h
      simp [List.countP_cons, hc, ih hnd.2 hs']

/-- Claim C1. For every list `companies` of raw previews, the deduplication step of
`ScrapeHomepage` returns a list in which (i) no preview has an empty slug, (ii) every
non-empty slug of the input is carried by exactly one kept preview, (iii) each kept preview
is the first input preview with its slug, name and tagline included, and (iv) the kept
previews stand in the order in which their slugs first occur in the input. -/
theorem uniquePreviews_dedup (companies : List CompanyPreview) :
    (∀ c ∈ uniquePreviews companies, c.Slug ≠ []) ∧
    (∀ s ∈ companies.map CompanyPreview.Slug, s ≠ [] →
      (uniquePreviews companies).countP (fun x => decide (x.Slug = s)) = 1) ∧
    (∀ c ∈ uniquePreviews companies,
      companies.find? (fun x => decide (x.Slug = c.Slug)) = some c) ∧
    (uniquePreviews companies).Pairwise (fun a b =>
      companies.findIdx (fun x => decide (x.Slug = a.Slug))
        < companies.findIdx (fun x => decide (x.Slug = b.Slug))) := by
  refine ⟨fun c hc => (uniqueLoop_mem hc).1, ?_, fun c hc => uniqueLoop_first hc,
    uniqueLoop_order companies []⟩
  intro s hs hne
  exact countP_slug_eq_one (uniqueLoop_nodup companies [])
    (uniqueLoop_complete hs hne (List.not_mem_nil s))

/-- Claim C1 on a concrete listing: a repeated slug, an empty slug, and the count of the
repeated slug in the output. -/
theorem uniquePreviews_dedup_witness :
    uniquePreviews [⟨"a".toList, "A1".toList, []⟩, ⟨[], "X".toList, []⟩,
        ⟨"b".toList, "B".toList, []⟩, ⟨"a".toList, "A2".toList, []⟩]
      = [⟨"a".toList, "A1".toList, []⟩, ⟨"b".toList, "B".toList, []⟩] ∧
    (uniquePreviews [⟨"a".toList, "A1".toList, []⟩, ⟨[], "X".toList, []⟩,
        ⟨"b".toList, "B".toList, []⟩, ⟨"a".toList, "A2".toList, []⟩]).countP
      (fun x => decide (x.Slug = "a".toList)) = 1 :=
  ⟨by decide,
    (uniquePreviews_dedup [⟨"a".toList, "A1".toList, []⟩, ⟨[], "X".toList, []⟩,
        ⟨"b".toList, "B".toList, []⟩, ⟨"a".toList, "A2".toList, []⟩]).2.1
      "a".toList (by decide) (by decide)⟩
/-! ## The line loop of `parseCompanyData` -/

/-! ### strings -/

theorem len_nil : len [] = 0 := rfl

theorem len_cons (c : Char) (s : Str) : len (c :: s) = c.utf8Size + len s := by
  simp [len]

theorem length_le_len (s : Str) : s.length ≤ len s := by
  induction s with
  | nil => simp [len]
  | cons c s ih =>
    rw [len_cons, List.length_cons]
    have := Char.utf8Size_pos c
    omega

theorem len_eq_zero_iff (s : Str) : len s = 0 ↔ s = [] := by
  constructor
  · intro h
    have := length_le_len s
    exact List.length_eq_zero.1 (by omega)
  · rintro rfl; rfl

theorem len_separator : len "·".toList = 2 := by decide

/-! ### frame of the line loop -/

theorem fundingStep_Name (st : Startup) (l : Str) : (fundingStep st l).Name = st.Name := by
  unfold fundingStep; split <;> rfl

theorem fundingStep_Tagline (st : Startup) (l : Str) :
    (fundingStep st l).Tagline = st.Tagline := by
  unfold fundingStep; split <;> rfl

theorem fundingStep_Description (st : Startup) (l : Str) :
    (fundingStep st l).Description = st.Description := by
  unfold fundingStep; split <;> rfl

theorem fundingRegex_ne_nil {l : Str} (h : fundingAnnouncementRegex l = true) : l ≠ [] := by
  rintro rfl
  simp [fundingAnnouncementRegex, after] at h

theorem fundingStep_Funding (st : Startup) (l : Str) :
    (fundingStep st l).FundingAnnouncement =
      if st.FundingAnnouncement = [] ∧ fundingAnnouncementRegex l = true then l
      else st.FundingAnnouncement := by
  unfold fundingStep
  by_cases h1 : st.FundingAnnouncement = [] <;> by_cases h2 : fundingAnnouncementRegex l = true <;>
    simp [h1, h2]

/-! ### the spec functions, one line further -/

theorem afterName_snoc (n : Str) (before : List Str) (l : Str) :
    afterName n (before ++ [l]) = if n ∈ before then afterName n before ++ [l] else [] := by
  induction before with
  | nil =>
    by_cases h : l = n <;> simp [afterName, h]
  | cons b bs ih =>
    by_cases hb : b = n
    · subst hb; simp [afterName]
    · have hb' : ¬ n = b := fun h => hb h.symm
      rw [List.cons_append]
      simp only [afterName, if_neg hb, List.mem_cons, hb', false_or]
      exact ih

theorem taglineCandidate_ne_nil {n l : Str} (h : taglineCandidate n l = true) : l ≠ [] := by
  rintro rfl
  simp [taglineCandidate] at h

theorem firstTagline_snoc (n : Str) (before : List Str) (l : Str) :
    firstTagline n (before ++ [l]) =
      if firstTagline n before ≠ [] then firstTagline n before
      else if n ∈ before ∧ taglineCandidate n l = true then l else [] := by
  unfold firstTagline
  rw [afterName_snoc]
  by_cases hn : n ∈ before
  · simp only [hn, if_true, List.find?_append, true_and]
    cases hf : (afterName n before).find? (taglineCandidate n) with
    | some t =>
      have : t ≠ [] := taglineCandidate_ne_nil (List.find?_some hf)
      simp [this]
    | none =>
      by_cases hc : taglineCandidate n l = true <;> simp [hc]
  · have h0 : afterName n before = [] := by
      clear l
      induction before with
      | nil => rfl
      | cons b bs ih =>
        have hb : ¬ b = n := fun h => hn (by simp [h])
        simp only [afterName, if_neg hb]
        exact ih (fun h => hn (List.mem_cons_of_mem _ h))
    simp [hn, h0]

theorem firstFunding_snoc (n : Str) (before : List Str) (l : Str) :
    firstFunding n (before ++ [l]) =
      if firstFunding n before ≠ [] then firstFunding n before
      else if l ≠ n ∧ fundingAnnouncementRegex l = true then l else [] := by
  unfold firstFunding
  rw [List.find?_append]
  cases hf : before.find? (fun l => l != n && fundingAnnouncementRegex l) with
  | some t =>
    have h := List.find?_some hf
    simp only [Bool.and_eq_true] at h
    have : t ≠ [] := fundingRegex_ne_nil h.2
    simp [this]
  | none =>
    by_cases hc : l ≠ n ∧ fundingAnnouncementRegex l = true
    · simp [hc.1, hc.2]
    · have : (l != n && fundingAnnouncementRegex l) = false := by
        by_cases h1 : l = n
        · simp [h1]
        · simp only [not_and] at hc
          simp [h1, hc h1]
      simp [this, hc]

/-- The tagline filter of the code, in the terms of `taglineCandidate`. -/
theorem taglineCandidate_eq (n l : Str) :
    taglineCandidate n l =
      (l != n && !taglineSkip l && decide (1 < len l) && decide (len l < 100)) := by
  unfold taglineCandidate taglineSkip
  by_cases h0 : l = []
  · subst h0; simp [len]
  · by_cases hs : l = "·".toList
    · subst hs
      simp
    · have h0' : (len l == 0) = false := by
        simpa using fun h => h0 ((len_eq_zero_iff l).1 h)
      have h1 : (l != []) = true := by simpa using h0
      have h2 : (l != "·".toList) = true := by simpa using hs
      have h3 : (l == "·".toList) = false := by simpa using hs
      rw [h0', h1, h2, h3]
      cases Contains l "Visit".toList <;> cases Contains l "View".toList <;>
        cases Contains l "Raised".toList <;> cases Contains l "Backed by".toList <;>
        cases Contains l "Get Updates".toList <;> simp

/-! ### one iteration of the line loop, case by case -/

theorem lineStep_name {fn : Bool} {st : Startup} {raw : Str} (h : TrimSpace raw = st.Name) :
    lineStep fn st raw = (true, st, false) := by
  simp [lineStep, h]

theorem lineStep_skip {fn : Bool} {st : Startup} {raw : Str} (h : TrimSpace raw ≠ st.Name)
    (hfn : fn = true) (ht : st.Tagline = []) (hs : taglineSkip (TrimSpace raw) = true) :
    lineStep fn st raw = (fn, fundingStep st (TrimSpace raw), false) := by
  simp [lineStep, h, hfn, fundingStep_Tagline, ht, hs]

theorem lineStep_tagline {fn : Bool} {st : Startup} {raw : Str} (h : TrimSpace raw ≠ st.Name)
    (hfn : fn = true) (ht : st.Tagline = []) (hs : taglineSkip (TrimSpace raw) = false)
    (h1 : 1 < len (TrimSpace raw)) (h2 : len (TrimSpace raw) < 100) :
    lineStep fn st raw =
      (fn, { fundingStep st (TrimSpace raw) with Tagline := TrimSpace raw }, false) := by
  simp [lineStep, h, hfn, fundingStep_Tagline, ht, hs, h1, h2]

theorem lineStep_other {fn : Bool} {st : Startup} {raw : Str} (h : TrimSpace raw ≠ st.Name)
    (hc : ¬ (fn = true ∧ st.Tagline = []) ∨
      (taglineSkip (TrimSpace raw) = false ∧
        ¬ (1 < len (TrimSpace raw) ∧ len (TrimSpace raw) < 100))) :
    lineStep fn st raw = descriptionStep fn (fundingStep st (TrimSpace raw)) (TrimSpace raw) := by
  simp only [lineStep, if_neg h, fundingStep_Tagline]
  rcases hc with hc | ⟨hs, hl⟩
  · have : (fn && st.Tagline == []) = false := by
      by_cases h1 : fn = true <;> by_cases h2 : st.Tagline = [] <;> simp_all
    rw [if_neg (by rw [this]; simp)]
  · split
    · rw [if_neg (by simp [hs])]
      have : (decide (len (TrimSpace raw) > 1) && decide (len (TrimSpace raw) < 100)) = false := by
        by_cases h1 : 1 < len (TrimSpace raw) <;> by_cases h2 : len (TrimSpace raw) < 100 <;>
          simp_all
      simp [this]
    · rfl

theorem descriptionStep_eq {fn : Bool} {st : Startup} {l : Str} (hd : st.Description = []) :
    descriptionStep fn st l =
      if longParagraph l = true then (fn, { st with Description := l }, true)
      else (fn, st, false) := by
  unfold descriptionStep longParagraph
  simp only [hd, beq_self_eq_true, Bool.true_and, gt_iff_lt]

theorem fundingStep_inv {n : Str} {before : List Str} (st : Startup) {l : Str}
    (hF : st.FundingAnnouncement = firstFunding n before) (hl : l ≠ n) :
    (fundingStep st l).FundingAnnouncement = firstFunding n (before ++ [l]) := by
  rw [fundingStep_Funding, firstFunding_snoc, ← hF]
  by_cases h1 : st.FundingAnnouncement = [] <;>
    by_cases h2 : fundingAnnouncementRegex l = true <;> simp [h1, h2, hl]

theorem longParagraph_len {l : Str} (h : longParagraph l = true) : 100 < len l := by
  unfold longParagraph at h
  simp only [Bool.and_eq_true, decide_eq_true_eq] at h
  exact h.1.1.1

theorem longParagraph_not_raised {l : Str} (h : longParagraph l = true) :
    Contains l "Raised".toList = false := by
  unfold longParagraph at h
  simp only [Bool.and_eq_true, Bool.not_eq_true'] at h
  exact h.1.1.2

theorem taglineSkip_of_long {l : Str} (h : longParagraph l = true) :
    taglineSkip l =
      (Contains l "Visit".toList || Contains l "View".toList ||
        Contains l "Backed by".toList || Contains l "Get Updates".toList) := by
  have h1 := longParagraph_len h
  have h2 := longParagraph_not_raised h
  have h3 : (len l == 0) = false := by
    simp only [beq_eq_false_iff_ne, ne_eq]; omega
  have h4 : (l == "·".toList) = false := by
    simp only [beq_eq_false_iff_ne, ne_eq]
    intro h5
    rw [h5, len_separator] at h1
    omega
  unfold taglineSkip
  rw [h2, h3, h4]
  simp

theorem mem_snoc_decide (n : Str) (before : List Str) (l : Str) (hln : l ≠ n) :
    decide (n ∈ before ++ [l]) = decide (n ∈ before) := by
  have : ¬ n = l := fun h => hln h.symm
  simp [this]

/-- The iteration when the loop reaches its last `if`. -/
theorem lineStep_descr {n : Str} {before : List Str} {fn : Bool} {st : Startup} {raw l : Str}
    (hinv : LoopInv n before fn st) (hln : l ≠ n)
    (hstep : lineStep fn st raw = descriptionStep fn (fundingStep st l) l)
    (hpo : passedOver n before l = false)
    (hT' : (fundingStep st l).Tagline = firstTagline n (before ++ [l])) :
    (takenAsDescription n before l = true ∧
      lineStep fn st raw = (fn, { fundingStep st l with Description := l }, true) ∧
      (fundingStep st l).Tagline = firstTagline n (before ++ [l]) ∧
      (fundingStep st l).FundingAnnouncement = firstFunding n (before ++ [l])) ∨
    (takenAsDescription n before l = false ∧
      ∃ fn' st', lineStep fn st raw = (fn', st', false) ∧
        LoopInv n (before ++ [l]) fn' st') := by
  obtain ⟨hN, hfn, _, hF, hD⟩ := hinv
  have hF' := fundingStep_inv st hF hln
  have hD' : (fundingStep st l).Description = [] := by rw [fundingStep_Description]; exact hD
  have hbne : (l != n) = true := by simpa using hln
  rw [descriptionStep_eq hD'] at hstep
  by_cases hlp : longParagraph l = true
  · left
    rw [if_pos hlp] at hstep
    refine ⟨?_, hstep, hT', hF'⟩
    unfold takenAsDescription
    rw [hbne, hlp, hpo]; rfl
  · right
    rw [if_neg hlp] at hstep
    have hlp' : longParagraph l = false := by simpa using hlp
    refine ⟨?_, fn, fundingStep st l, hstep, ?_, ?_, hT', hF', hD'⟩
    · unfold takenAsDescription
      rw [hlp']; simp
    · rw [fundingStep_Name]; exact hN
    · rw [mem_snoc_decide n before l hln]; exact hfn

theorem lineStep_spec {n : Str} {before : List Str} {fn : Bool} {st : Startup}
    (hinv : LoopInv n before fn st) (raw : Str) :
    (takenAsDescription n before (TrimSpace raw) = true ∧
      lineStep fn st raw =
        (fn, { fundingStep st (TrimSpace raw) with Description := TrimSpace raw }, true) ∧
      (fundingStep st (TrimSpace raw)).Tagline = firstTagline n (before ++ [TrimSpace raw]) ∧
      (fundingStep st (TrimSpace raw)).FundingAnnouncement
        = firstFunding n (before ++ [TrimSpace raw])) ∨
    (takenAsDescription n before (TrimSpace raw) = false ∧
      ∃ fn' st', lineStep fn st raw = (fn', st', false) ∧
        LoopInv n (before ++ [TrimSpace raw]) fn' st') := by
  have hinv' := hinv
  obtain ⟨hN, hfn, hT, hF, hD⟩ := hinv
  generalize hl : TrimSpace raw = l
  by_cases hln : l = n
  · -- the name line
    right
    refine ⟨by simp [takenAsDescription, hln], true, st, ?_, hN, ?_, ?_, ?_, hD⟩
    · exact lineStep_name (by rw [hl, hln, hN])
    · simp [hln]
    · rw [firstTagline_snoc, ← hT]
      by_cases h : st.Tagline = [] <;> simp [h, taglineCandidate, hln]
    · rw [firstFunding_snoc, ← hF]
      by_cases h : st.FundingAnnouncement = [] <;> simp [h, hln]
  · have hne : TrimSpace raw ≠ st.Name := by rw [hl, hN]; exact hln
    have hF' := fundingStep_inv st hF hln
    have hcand := taglineCandidate_eq n l
    have hbne : (l != n) = true := by simpa using hln
    by_cases hB : fn = true ∧ st.Tagline = []
    · have hmem : n ∈ before := by simpa [hB.1] using hfn.symm
      have hT0 : firstTagline n before = [] := by rw [← hT]; exact hB.2
      by_cases hs : taglineSkip l = true
      · right
        have htaken : takenAsDescription n before l = false := by
          by_cases hlp : longParagraph l = true
          · have hpo : passedOver n before l = true := by
              unfold passedOver
              rw [← taglineSkip_of_long hlp, hs, hT0]
              simp [hmem]
            unfold takenAsDescription
            rw [hpo]; simp
          · have hlp' : longParagraph l = false := by simpa using hlp
            unfold takenAsDescription
            rw [hlp']; simp
        refine ⟨htaken, fn, fundingStep st l, ?_, ?_, ?_, ?_, hF', ?_⟩
        · rw [← hl]; exact lineStep_skip hne hB.1 hB.2 (by rw [hl]; exact hs)
        · rw [fundingStep_Name]; exact hN
        · simp [hB.1, hmem]
        · rw [fundingStep_Tagline, firstTagline_snoc, hT0, hB.2, hcand, hs]
          simp
        · rw [fundingStep_Description]; exact hD
      · have hs' : taglineSkip l = false := by simpa using hs
        by_cases hlen : 1 < len l ∧ len l < 100
        · right
          have htaken : takenAsDescription n before l = false := by
            have : longParagraph l = false := by
              cases h : longParagraph l
              · rfl
              · have := longParagraph_len h; omega
            unfold takenAsDescription
            rw [this]; simp
          refine ⟨htaken, fn, { fundingStep st l with Tagline := l }, ?_, ?_, ?_, ?_, hF', ?_⟩
          · rw [← hl]
            exact lineStep_tagline hne hB.1 hB.2 (by rw [hl]; exact hs') (by rw [hl]; exact hlen.1)
              (by rw [hl]; exact hlen.2)
          · show (fundingStep st l).Name = n
            rw [fundingStep_Name]; exact hN
          · simp [hB.1, hmem]
          · show l = firstTagline n (before ++ [l])
            rw [firstTagline_snoc, hT0, hcand, hs', hbne]
            simp [hmem, hlen.1, hlen.2]
          · show (fundingStep st l).Description = []
            rw [fundingStep_Description]; exact hD
        · apply lineStep_descr hinv' hln
          · rw [← hl]
            exact lineStep_other hne (Or.inr ⟨by rw [hl]; exact hs', by rw [hl]; exact hlen⟩)
          · have h4 := hs'
            unfold taglineSkip at h4
            simp only [Bool.or_eq_false_iff] at h4
            unfold passedOver
            rw [h4.1.1.1.1.1.1, h4.1.1.1.1.1.2, h4.1.1.1.2, h4.1.1.2]
            simp
          · rw [fundingStep_Tagline, firstTagline_snoc, hT0, hB.2, hcand, hs', hbne]
            have : (decide (1 < len l) && decide (len l < 100)) = false := by
              by_cases h1 : 1 < len l <;> by_cases h2 : len l < 100 <;> simp_all
            simp [this]
    · apply lineStep_descr hinv' hln
      · rw [← hl]; exact lineStep_other hne (Or.inl hB)
      · unfold passedOver
        have : (decide (n ∈ before) && firstTagline n before == []) = false := by
          rw [← hfn, ← hT]
          by_cases h1 : fn = true <;> by_cases h2 : st.Tagline = [] <;> simp_all
        rw [this]; rfl
      · rw [fundingStep_Tagline, firstTagline_snoc, ← hT]
        by_cases h : st.Tagline = []
        · have : n ∉ before := by
            intro hm
            exact hB ⟨by simp [hfn, hm], h⟩
          simp [h, this]
        · simp [h]

theorem linesLoop_spec (n : Str) (raws : List Str) (before : List Str) (fn : Bool)
    (st : Startup) (hinv : LoopInv n before fn st) :
    (linesLoop raws fn st).Description
        = (firstDescription n before (raws.map TrimSpace)).getD [] ∧
    (linesLoop raws fn st).Tagline
        = firstTagline n (before ++ scanned n before (raws.map TrimSpace)) ∧
    (linesLoop raws fn st).FundingAnnouncement
        = firstFunding n (before ++ scanned n before (raws.map TrimSpace)) := by
  induction raws generalizing before fn st with
  | nil =>
    obtain ⟨_, _, hT, hF, hD⟩ := hinv
    simp [linesLoop, firstDescription, scanned, hT, hF, hD]
  | cons raw raws ih =>
    rw [List.map_cons]
    unfold linesLoop firstDescription scanned
    rcases lineStep_spec hinv raw with ⟨htaken, hstep, hT, hF⟩ | ⟨htaken, fn', st', hstep, hinv'⟩
    · rw [hstep, if_pos htaken, if_pos htaken]
      exact ⟨rfl, hT, hF⟩
    · rw [hstep, if_neg (by simp [htaken]), if_neg (by simp [htaken])]
      have := ih (before ++ [TrimSpace raw]) fn' st' hinv'
      simpa using this

/-! ### frame: what the loops leave alone -/

theorem linkStep_frame (st : Startup) (link : Link) :
    (linkStep st link).Name = st.Name ∧ (linkStep st link).Slug = st.Slug ∧
    (linkStep st link).Tagline = st.Tagline ∧ (linkStep st link).Description = st.Description ∧
    (linkStep st link).FundingAnnouncement = st.FundingAnnouncement ∧
    (linkStep st link).LastFetched = st.LastFetched := by
  unfold linkStep
  simp only []
  split_ifs <;> simp

theorem linksLoop_frame (links : List Link) (st : Startup) :
    (linksLoop st links).Name = st.Name ∧ (linksLoop st links).Slug = st.Slug ∧
    (linksLoop st links).Tagline = st.Tagline ∧
    (linksLoop st links).Description = st.Description ∧
    (linksLoop st links).FundingAnnouncement = st.FundingAnnouncement ∧
    (linksLoop st links).LastFetched = st.LastFetched := by
  induction links generalizing st with
  | nil => simp [linksLoop]
  | cons link links ih =>
    have h := ih (linkStep st link)
    have h' := linkStep_frame st link
    simp only [linksLoop, List.foldl_cons] at h ⊢
    obtain ⟨h1, h2, h3, h4, h5, h6⟩ := h
    obtain ⟨g1, g2, g3, g4, g5, g6⟩ := h'
    exact ⟨h1.trans g1, h2.trans g2, h3.trans g3, h4.trans g4, h5.trans g5, h6.trans g6⟩

/-- The line loop changes nothing but the tagline, the funding announcement and the
description. -/
theorem lineStep_frame (fn : Bool) (st : Startup) (raw : Str) :
    (lineStep fn st raw).2.1 =
      { st with Tagline := (lineStep fn st raw).2.1.Tagline,
                FundingAnnouncement := (lineStep fn st raw).2.1.FundingAnnouncement,
                Description := (lineStep fn st raw).2.1.Description } := by
  unfold lineStep descriptionStep fundingStep
  simp only []
  split_ifs <;> rfl

theorem linesLoop_frame (raws : List Str) (fn : Bool) (st : Startup) :
    linesLoop raws fn st =
      { st with Tagline := (linesLoop raws fn st).Tagline,
                FundingAnnouncement := (linesLoop raws fn st).FundingAnnouncement,
                Description := (linesLoop raws fn st).Description } := by
  induction raws generalizing fn st with
  | nil => rfl
  | cons raw raws ih =>
    unfold linesLoop
    have hf := lineStep_frame fn st raw
    rcases hstep : lineStep fn st raw with ⟨fn', st', brk⟩
    rw [hstep] at hf
    simp only at hf
    cases brk
    · simp only []
      have h := ih fn' st'
      rw [h, hf]
    · simp only []
      exact hf

/-- The `Startup` literal `parseCompanyData` starts from, with banner and logo set. -/
theorem loopInv_init (n : Str) (st : Startup) (hN : st.Name = n) (hT : st.Tagline = [])
    (hF : st.FundingAnnouncement = []) (hD : st.Description = []) :
    LoopInv n [] false st :=
  ⟨hN, by simp, by simp [hT, firstTagline, afterName], by simp [hF, firstFunding], hD⟩

theorem bannerStep_frame (st : Startup) (images : List Image) :
    (bannerStep st images).Name = st.Name ∧ (bannerStep st images).Slug = st.Slug ∧
    (bannerStep st images).Tagline = st.Tagline ∧
    (bannerStep st images).Description = st.Description ∧
    (bannerStep st images).FundingAnnouncement = st.FundingAnnouncement ∧
    (bannerStep st images).LastFetched = st.LastFetched := by
  unfold bannerStep; split <;> simp

theorem logoStep_frame (st : Startup) (images : List Image) :
    (logoStep st images).Name = st.Name ∧ (logoStep st images).Slug = st.Slug ∧
    (logoStep st images).Tagline = st.Tagline ∧
    (logoStep st images).Description = st.Description ∧
    (logoStep st images).FundingAnnouncement = st.FundingAnnouncement ∧
    (logoStep st images).LastFetched = st.LastFetched := by
  unfold logoStep; split <;> simp

theorem teamSizeStep_frame (st : Startup) (bodyText : Str) :
    (teamSizeStep st bodyText).Name = st.Name ∧ (teamSizeStep st bodyText).Slug = st.Slug ∧
    (teamSizeStep st bodyText).Tagline = st.Tagline ∧
    (teamSizeStep st bodyText).Description = st.Description ∧
    (teamSizeStep st bodyText).FundingAnnouncement = st.FundingAnnouncement ∧
    (teamSizeStep st bodyText).LastFetched = st.LastFetched := by
  unfold teamSizeStep; split <;> simp

/-- The state in which `parseCompanyData` enters the line loop. -/
theorem beforeLines_inv (now : Time) (slug : Str) (raw : RawDetailContent) :
    LoopInv (TrimSuffix raw.title " | startups.gallery".toList) [] false
      (linksLoop (logoStep (bannerStep (newStartup now slug raw.title) raw.images) raw.images)
        raw.links) ∧
    (linksLoop (logoStep (bannerStep (newStartup now slug raw.title) raw.images) raw.images)
        raw.links).Slug = slug := by
  obtain ⟨a1, a2, a3, a4, a5, _⟩ := bannerStep_frame (newStartup now slug raw.title) raw.images
  obtain ⟨b1, b2, b3, b4, b5, _⟩ :=
    logoStep_frame (bannerStep (newStartup now slug raw.title) raw.images) raw.images
  obtain ⟨c1, c2, c3, c4, c5, _⟩ := linksLoop_frame raw.links
    (logoStep (bannerStep (newStartup now slug raw.title) raw.images) raw.images)
  refine ⟨loopInv_init _ _ ?_ ?_ ?_ ?_, ?_⟩
  · rw [c1, b1, a1]; rfl
  · rw [c3, b3, a3]; rfl
  · rw [c5, b5, a5]; rfl
  · rw [c4, b4, a4]; rfl
  · rw [c2, b2, a2]; rfl

theorem parseCompanyData_scan (now : Time) (slug : Str) (raw : RawDetailContent) :
    (parseCompanyData now slug raw).Name = TrimSuffix raw.title " | startups.gallery".toList ∧
    (parseCompanyData now slug raw).Slug = slug ∧
    (parseCompanyData now slug raw).Description
      = (firstDescription (TrimSuffix raw.title " | startups.gallery".toList) []
          (trimmedLines raw.bodyText)).getD [] ∧
    (parseCompanyData now slug raw).Tagline
      = firstTagline (TrimSuffix raw.title " | startups.gallery".toList)
          (scanned (TrimSuffix raw.title " | startups.gallery".toList) []
            (trimmedLines raw.bodyText)) ∧
    (parseCompanyData now slug raw).FundingAnnouncement
      = firstFunding (TrimSuffix raw.title " | startups.gallery".toList)
          (scanned (TrimSuffix raw.title " | startups.gallery".toList) []
            (trimmedLines raw.bodyText)) := by
  obtain ⟨hinv, hslug⟩ := beforeLines_inv now slug raw
  have hspec := linesLoop_spec _ (Split raw.bodyText '\n') [] false _ hinv
  have hframe := linesLoop_frame (Split raw.bodyText '\n') false
    (linksLoop (logoStep (bannerStep (newStartup now slug raw.title) raw.images) raw.images)
        raw.links)
  simp only [List.nil_append] at hspec
  obtain ⟨s1, s2, s3⟩ := hspec
  obtain ⟨t1, t2, t3, t4, t5, _⟩ := teamSizeStep_frame
    (linesLoop (Split raw.bodyText '\n') false
      (linksLoop (logoStep (bannerStep (newStartup now slug raw.title) raw.images) raw.images)
        raw.links)) raw.bodyText
  unfold parseCompanyData
  simp only []
  refine ⟨?_, ?_, ?_, ?_, ?_⟩
  · rw [t1, hframe]; exact hinv.1
  · rw [t2, hframe]; exact hslug
  · rw [t4]; exact s1
  · rw [t3]; exact s2
  · rw [t5]; exact s3

theorem parseCompanyData_TeamSize (now : Time) (slug : Str) (raw : RawDetailContent) (m : Str)
    (h : teamSizeRegex raw.bodyText = some m) :
    (parseCompanyData now slug raw).TeamSize = m := by
  unfold parseCompanyData teamSizeStep
  simp only [h]

/-! ## `loadStartups` -/

theorem Sub_lt_day (t u : Time) : Sub t u < 24 * Hour ↔ t - u < 24 * Hour := by
  have h24 : (24 : Int) * Hour = 86400000000000 := by norm_num [Hour]
  rw [h24]
  unfold Sub minDuration maxDuration
  split_ifs <;> constructor <;> intro h <;> linarith

theorem refreshLoop_eq (w : World) (ps : List CompanyPreview) (i : Nat)
    (startups : List Startup) (calls : List Call) :
    refreshLoop w ps i startups calls =
      (startups ++ ((ps.take (20 - i)).enumFrom i).filterMap (fetchedRecord w),
       calls ++ (ps.take (20 - i)).map (fun p => Call.scrapeCompany p.Slug)) := by
  induction ps generalizing i startups calls with
  | nil => simp [refreshLoop]
  | cons p ps ih =>
    unfold refreshLoop
    by_cases hi : i ≥ 20
    · have h0 : 20 - i = 0 := by omega
      simp [hi, h0]
    · have h1 : 20 - i = (20 - (i + 1)) + 1 := by omega
      rw [if_neg hi, h1, List.take_succ_cons, List.enumFrom_cons, List.map_cons]
      cases hsc : ScrapeCompany (w.company i p.Slug) (w.fetchedAt i) p.Slug with
      | error e =>
        simp only []
        rw [ih, List.filterMap_cons_none (by simp [fetchedRecord, hsc])]
        simp
      | ok s =>
        simp only []
        have hf : fetchedRecord w (i, p) =
            some (if s.Tagline = [] then { s with Tagline := p.Tagline } else s) := by
          simp only [fetchedRecord, hsc]
        rw [ih, List.filterMap_cons_some hf]
        simp

theorem refresh_eq (w : World) (previews : List CompanyPreview)
    (h : ScrapeHomepage w.homepage = .ok previews) :
    refresh w =
      (((previews.take 20).enumFrom 0).filterMap (fetchedRecord w),
       Call.scrapeHomepage :: (previews.take 20).map (fun p => Call.scrapeCompany p.Slug)
         ++ [Call.saveCache (((previews.take 20).enumFrom 0).filterMap (fetchedRecord w))]) := by
  simp [refresh, h, refreshLoop_eq]

theorem refresh_calls_ne_nil (w : World) : (refresh w).2.head? = some Call.scrapeHomepage := by
  unfold refresh
  cases h : ScrapeHomepage w.homepage with
  | error e => rfl
  | ok previews => simp [refreshLoop_eq]

theorem loadStartups_stale (w : World)
    (h : ∀ cache, w.cache = .ok cache → ¬ w.now - cache.LastUpdated < 24 * Hour) :
    loadStartups w = refresh w := by
  unfold loadStartups
  cases hc : w.cache with
  | error e => rfl
  | ok cache =>
    have := h cache hc
    simp only [Since, Sub_lt_day, if_neg this]

theorem loadStartups_fresh (w : World) (cache : Cache) (hc : w.cache = .ok cache)
    (h : w.now - cache.LastUpdated < 24 * Hour) :
    loadStartups w = (cache.Startups, []) := by
  unfold loadStartups
  simp only [hc, Since, Sub_lt_day, if_pos h]

/-- Claim C2. `loadStartups` returns the cached records unchanged and makes no call to the
scraper exactly when `LoadCache` succeeded and `now - LastUpdated` is strictly less than 24
hours. A cache aged 23h59m is served; a cache aged 24h00m01s or exactly 24h, a failed load
(missing file or content that does not unmarshal) lead to the refresh, whose first call is
`ScrapeHomepage`. -/
theorem loadStartups_serves_cache_iff_fresh (w : World) :
    ((∃ cache, w.cache = .ok cache ∧ loadStartups w = (cache.Startups, [])) ↔
      (∃ cache, w.cache = .ok cache ∧ w.now - cache.LastUpdated < 24 * Hour)) ∧
    (∀ cache, w.cache = .ok cache → w.now - cache.LastUpdated = 23 * Hour + 59 * Minute →
      loadStartups w = (cache.Startups, [])) ∧
    (∀ cache, w.cache = .ok cache →
      (w.now - cache.LastUpdated = 24 * Hour + Second ∨ w.now - cache.LastUpdated = 24 * Hour) →
      loadStartups w = refresh w) ∧
    (∀ err, w.cache = .error err → loadStartups w = refresh w) ∧
    (∀ (Data : Type) (readFile : Except Error Data) (unmarshal : Data → Except Error Cache),
      w.cache = LoadCache readFile unmarshal →
      ((∃ err, readFile = .error err) ∨
        (∃ data err, readFile = .ok data ∧ unmarshal data = .error err)) →
      loadStartups w = refresh w) ∧
    (refresh w).2.head? = some Call.scrapeHomepage := by
  refine ⟨⟨?_, ?_⟩, ?_, ?_, ?_, ?_, refresh_calls_ne_nil w⟩
  · rintro ⟨cache, hc, hl⟩
    refine ⟨cache, hc, ?_⟩
    by_contra hn
    have hs : loadStartups w = refresh w := by
      apply loadStartups_stale
      intro c' hc'
      rw [hc] at hc'
      cases hc'
      exact hn
    have := refresh_calls_ne_nil w
    rw [← hs, hl] at this
    simp at this
  · rintro ⟨cache, hc, hf⟩
    exact ⟨cache, hc, loadStartups_fresh w cache hc hf⟩
  · intro cache hc hage
    apply loadStartups_fresh w cache hc
    rw [hage]; norm_num [Hour, Minute]
  · intro cache hc hage
    apply loadStartups_stale
    intro c' hc'
    rw [hc] at hc'
    cases hc'
    rcases hage with hage | hage <;> rw [hage] <;> norm_num [Hour, Second]
  · intro err hc
    apply loadStartups_stale
    intro c' hc'
    rw [hc] at hc'
    cases hc'
  · intro Data readFile unmarshal hc hfail
    apply loadStartups_stale
    intro c' hc'
    rw [hc] at hc'
    rcases hfail with ⟨err, hr⟩ | ⟨data, err, hr, hu⟩
    · rw [hr] at hc'
      cases hc'
    · rw [hr] at hc'
      simp only [LoadCache, hu] at hc'
      cases hc'

/-- Claim C2 on a concrete cache that is 23 hours and 59 minutes old: it is served. -/
theorem loadStartups_serves_cache_iff_fresh_witness :
    loadStartups freshWorld = ([newStartup 0 "a".toList "A".toList], []) :=
  (loadStartups_serves_cache_iff_fresh freshWorld).2.1 _ rfl (by decide)

theorem loadStartups_refresh_eq (w : World) (previews : List CompanyPreview)
    (hstale : ∀ cache, w.cache = .ok cache → ¬ w.now - cache.LastUpdated < 24 * Hour)
    (hp : ScrapeHomepage w.homepage = .ok previews) :
    loadStartups w =
      (((previews.take 20).enumFrom 0).filterMap (fetchedRecord w),
       Call.scrapeHomepage :: (previews.take 20).map (fun p => Call.scrapeCompany p.Slug)
         ++ [Call.saveCache (((previews.take 20).enumFrom 0).filterMap (fetchedRecord w))]) := by
  rw [loadStartups_stale w hstale, refresh_eq w previews hp]

theorem filterMap_length_le_twenty {α β : Type} (f : Nat × α → Option β) (l : List α) :
    (((l.take 20).enumFrom 0).filterMap f).length ≤ 20 := by
  refine le_trans (List.length_filterMap_le _ _) ?_
  simp

/-- Claim C3. When `loadStartups` refreshes and the listing yields `previews`, of any length,
the calls it makes are `ScrapeHomepage`, then `ScrapeCompany` for the first 20 previews in
order, then `SaveCache`; so at most 20 detail fetches are attempted and at most 20 records
are returned, whichever fetches fail. -/
theorem loadStartups_fetch_cap (w : World) (previews : List CompanyPreview)
    (hstale : ∀ cache, w.cache = .ok cache → ¬ w.now - cache.LastUpdated < 24 * Hour)
    (hp : ScrapeHomepage w.homepage = .ok previews) :
    (loadStartups w).2 =
      Call.scrapeHomepage :: (previews.take 20).map (fun p => Call.scrapeCompany p.Slug)
        ++ [Call.saveCache (loadStartups w).1] ∧
    (loadStartups w).2.countP Call.isScrapeCompany ≤ 20 ∧
    (loadStartups w).1.length ≤ 20 := by
  rw [loadStartups_refresh_eq w previews hstale hp]
  refine ⟨rfl, ?_, filterMap_length_le_twenty _ _⟩
  have h1 : ∀ l : List CompanyPreview,
      (l.map (fun p => Call.scrapeCompany p.Slug)).countP Call.isScrapeCompany = l.length := by
    intro l
    induction l with
    | nil => rfl
    | cons a l ih => simp [List.countP_cons, Call.isScrapeCompany, ih]
  simp only [List.countP_cons, List.countP_append, h1, Call.isScrapeCompany, List.countP_nil,
    List.length_take]
  simp

/-- Claim C3 on a listing of 25 previews with a stale cache. -/
theorem loadStartups_fetch_cap_witness :
    (∀ cache, manyWorld.cache = .ok cache → ¬ manyWorld.now - cache.LastUpdated < 24 * Hour) ∧
    ScrapeHomepage manyWorld.homepage = .ok manyPreviews ∧
    manyPreviews.length = 25 ∧
    (loadStartups manyWorld).2.countP Call.isScrapeCompany ≤ 20 ∧
    (loadStartups manyWorld).1.length ≤ 20 :=
  have hstale : ∀ cache, manyWorld.cache = .ok cache →
      ¬ manyWorld.now - cache.LastUpdated < 24 * Hour := by
    intro cache h
    cases h
    decide
  have hp : ScrapeHomepage manyWorld.homepage = .ok manyPreviews := by rfl
  ⟨hstale, hp, by decide, (loadStartups_fetch_cap manyWorld manyPreviews hstale hp).2⟩

theorem fetched_forall₂ (w : World) (R : Startup → Nat × CompanyPreview → Prop)
    (hR : ∀ ip r, fetchedRecord w ip = some r → R r ip) (l : List (Nat × CompanyPreview)) :
    List.Forall₂ R (l.filterMap (fetchedRecord w)) (l.filter (fetchSucceeds w)) := by
  induction l with
  | nil => exact List.Forall₂.nil
  | cons ip l ih =>
    cases hc : w.company ip.1 ip.2.Slug with
    | error e =>
      have h1 : fetchedRecord w ip = none := by simp [fetchedRecord, ScrapeCompany, hc]
      have h2 : fetchSucceeds w ip = false := by simp [fetchSucceeds, hc]
      rw [List.filterMap_cons_none h1, List.filter_cons_of_neg (by simp [h2])]
      exact ih
    | ok raw =>
      have h2 : fetchSucceeds w ip = true := by simp [fetchSucceeds, hc]
      cases h1 : fetchedRecord w ip with
      | none => simp [fetchedRecord, ScrapeCompany, hc] at h1
      | some r =>
        rw [List.filterMap_cons_some h1, List.filter_cons_of_pos h2]
        exact List.Forall₂.cons (hR ip r h1) ih

theorem fetchedRecord_slug (w : World) (ip : Nat × CompanyPreview) (r : Startup)
    (h : fetchedRecord w ip = some r) : r.Slug = ip.2.Slug := by
  unfold fetchedRecord ScrapeCompany at h
  cases hc : w.company ip.1 ip.2.Slug with
  | error e => simp [hc] at h
  | ok raw =>
    simp only [hc, Option.some.injEq] at h
    have hs := (parseCompanyData_scan (w.fetchedAt ip.1) ip.2.Slug raw).2.1
    rw [← h]
    split
    · exact hs
    · exact hs

theorem fetchedRecord_merge (w : World) (ip : Nat × CompanyPreview) (r : Startup)
    (h : fetchedRecord w ip = some r) :
    ∃ raw, w.company ip.1 ip.2.Slug = .ok raw ∧
      ((parseCompanyData (w.fetchedAt ip.1) ip.2.Slug raw).Tagline = [] →
        r.Tagline = ip.2.Tagline) ∧
      ((parseCompanyData (w.fetchedAt ip.1) ip.2.Slug raw).Tagline ≠ [] →
        r.Tagline = (parseCompanyData (w.fetchedAt ip.1) ip.2.Slug raw).Tagline) ∧
      r = { parseCompanyData (w.fetchedAt ip.1) ip.2.Slug raw with Tagline := r.Tagline } := by
  unfold fetchedRecord ScrapeCompany at h
  cases hc : w.company ip.1 ip.2.Slug with
  | error e => simp [hc] at h
  | ok raw =>
    simp only [hc, Option.some.injEq] at h
    refine ⟨raw, rfl, ?_, ?_, ?_⟩
    · intro ht
      rw [← h, if_pos ht]
    · intro ht
      rw [← h, if_neg ht]
    · rw [← h]
      split <;> rfl

/-- Claim C4. The records a refresh returns are, in preview order, one for each preview
within the cap whose detail fetch succeeded, each with the slug of its preview, and none
for a preview whose fetch failed. With 5 previews of which the second and fourth fail, the
result has exactly 3 records, for the previews 1, 3, 5 in that order. -/
theorem loadStartups_partial_failure (w : World) (previews : List CompanyPreview)
    (hstale : ∀ cache, w.cache = .ok cache → ¬ w.now - cache.LastUpdated < 24 * Hour)
    (hp : ScrapeHomepage w.homepage = .ok previews) :
    (loadStartups w).1.map Startup.Slug
      = ((((previews.take 20).enumFrom 0).filter (fetchSucceeds w)).map
          (fun ip => ip.2.Slug)) ∧
    (∀ p1 p2 p3 p4 p5 : CompanyPreview, previews = [p1, p2, p3, p4, p5] →
      fetchSucceeds w (0, p1) = true → fetchSucceeds w (1, p2) = false →
      fetchSucceeds w (2, p3) = true → fetchSucceeds w (3, p4) = false →
      fetchSucceeds w (4, p5) = true →
      (loadStartups w).1.length = 3 ∧
      (loadStartups w).1.map Startup.Slug = [p1.Slug, p3.Slug, p5.Slug]) := by
  have hforall := fetched_forall₂ w (fun r ip => r.Slug = ip.2.Slug)
    (fun ip r h => fetchedRecord_slug w ip r h) ((previews.take 20).enumFrom 0)
  have hmap : (loadStartups w).1.map Startup.Slug
      = ((((previews.take 20).enumFrom 0).filter (fetchSucceeds w)).map
          (fun ip => ip.2.Slug)) := by
    rw [loadStartups_refresh_eq w previews hstale hp]
    simp only []
    generalize ((previews.take 20).enumFrom 0).filterMap (fetchedRecord w) = rs at hforall
    generalize ((previews.take 20).enumFrom 0).filter (fetchSucceeds w) = ips at hforall
    induction hforall with
    | nil => rfl
    | cons h _ ih => simp [h, ih]
  refine ⟨hmap, ?_⟩
  intro p1 p2 p3 p4 p5 hps h1 h2 h3 h4 h5
  have hl : (loadStartups w).1.length = ((loadStartups w).1.map Startup.Slug).length := by
    simp
  rw [hl, hmap, hps]
  simp [List.enumFrom, List.filter_cons, h1, h2, h3, h4, h5]

/-- Claim C4 on five concrete previews with the failure pattern of the claim. -/
theorem loadStartups_partial_failure_witness :
    (∀ cache, fiveWorld.cache = .ok cache → ¬ fiveWorld.now - cache.LastUpdated < 24 * Hour) ∧
    ScrapeHomepage fiveWorld.homepage = .ok fivePreviews ∧
    (loadStartups fiveWorld).1.length = 3 ∧
    (loadStartups fiveWorld).1.map Startup.Slug = ["a".toList, "c".toList, "e".toList] :=
  have hstale : ∀ cache, fiveWorld.cache = .ok cache →
      ¬ fiveWorld.now - cache.LastUpdated < 24 * Hour := by
    intro cache h
    cases h
  have hp : ScrapeHomepage fiveWorld.homepage = .ok fivePreviews := by rfl
  ⟨hstale, hp, (loadStartups_partial_failure fiveWorld fivePreviews hstale hp).2 _ _ _ _ _ rfl
    (by decide) (by decide) (by decide) (by decide) (by decide)⟩

/-- Claim C5. A refresh pairs every returned record `r` with the preview, within the cap,
whose fetch succeeded: if the extracted record has an empty tagline then `r.Tagline` is the
tagline of the preview, otherwise it is the extracted tagline, and `r` agrees with the
extracted record on every other field. -/
theorem loadStartups_tagline_fallback (w : World) (previews : List CompanyPreview)
    (hstale : ∀ cache, w.cache = .ok cache → ¬ w.now - cache.LastUpdated < 24 * Hour)
    (hp : ScrapeHomepage w.homepage = .ok previews) :
    List.Forall₂
      (fun (r : Startup) (ip : Nat × CompanyPreview) =>
        ∃ raw, w.company ip.1 ip.2.Slug = .ok raw ∧
          ((parseCompanyData (w.fetchedAt ip.1) ip.2.Slug raw).Tagline = [] →
            r.Tagline = ip.2.Tagline) ∧
          ((parseCompanyData (w.fetchedAt ip.1) ip.2.Slug raw).Tagline ≠ [] →
            r.Tagline = (parseCompanyData (w.fetchedAt ip.1) ip.2.Slug raw).Tagline) ∧
          r = { parseCompanyData (w.fetchedAt ip.1) ip.2.Slug raw with Tagline := r.Tagline })
      (loadStartups w).1
      (((previews.take 20).enumFrom 0).filter (fetchSucceeds w)) := by
  rw [loadStartups_refresh_eq w previews hstale hp]
  exact fetched_forall₂ w _ (fun ip r h => fetchedRecord_merge w ip r h) _

/-- Claim C5 on five concrete previews: one page has a tagline of its own, two fall back to
the tagline of their preview. -/
theorem loadStartups_tagline_fallback_witness :
    (∀ cache, fiveWorld.cache = .ok cache → ¬ fiveWorld.now - cache.LastUpdated < 24 * Hour) ∧
    ScrapeHomepage fiveWorld.homepage = .ok fivePreviews ∧
    (loadStartups fiveWorld).1.map Startup.Tagline
      = ["Widgets for everyone".toList, "third".toList, "fifth".toList] ∧
    List.Forall₂
      (fun (r : Startup) (ip : Nat × CompanyPreview) =>
        ∃ raw, fiveWorld.company ip.1 ip.2.Slug = .ok raw ∧
          ((parseCompanyData (fiveWorld.fetchedAt ip.1) ip.2.Slug raw).Tagline = [] →
            r.Tagline = ip.2.Tagline) ∧
          ((parseCompanyData (fiveWorld.fetchedAt ip.1) ip.2.Slug raw).Tagline ≠ [] →
            r.Tagline = (parseCompanyData (fiveWorld.fetchedAt ip.1) ip.2.Slug raw).Tagline) ∧
          r = { parseCompanyData (fiveWorld.fetchedAt ip.1) ip.2.Slug raw with
                Tagline := r.Tagline })
      (loadStartups fiveWorld).1
      (((fivePreviews.take 20).enumFrom 0).filter (fetchSucceeds fiveWorld)) :=
  have hstale : ∀ cache, fiveWorld.cache = .ok cache →
      ¬ fiveWorld.now - cache.LastUpdated < 24 * Hour := by
    intro cache h
    cases h
  have hp : ScrapeHomepage fiveWorld.homepage = .ok fivePreviews := by rfl
  ⟨hstale, hp, by decide, loadStartups_tagline_fallback fiveWorld fivePreviews hstale hp⟩
/-! ## The worked example -/

/-! ### `Split` on joined lines -/

theorem Split_ne_nil (s : Str) (sep : Char) : Split s sep ≠ [] := by
  induction s with
  | nil => simp [Split]
  | cons c cs ih =>
    unfold Split
    split
    · simp
    · split <;> simp

theorem Split_no_sep (s : Str) (sep : Char) (h : sep ∉ s) : Split s sep = [s] := by
  induction s with
  | nil => rfl
  | cons c cs ih =>
    have hc : ¬ c = sep := fun hc => h (by simp [hc])
    have ih' := ih (fun hm => h (List.mem_cons_of_mem _ hm))
    unfold Split
    rw [if_neg hc, ih']

theorem Split_append_sep (s rest : Str) (sep : Char) (h : sep ∉ s) :
    Split (s ++ sep :: rest) sep = s :: Split rest sep := by
  induction s with
  | nil => simp [Split]
  | cons c cs ih =>
    have hc : ¬ c = sep := fun hc => h (by simp [hc])
    have ih' := ih (fun hm => h (List.mem_cons_of_mem _ hm))
    rw [List.cons_append, Split, if_neg hc, ih']

/-! ### the team-size pattern on a text without digit range -/

theorem noDigitRange_tail {c : Char} {s : Str} (h : noDigitRange (c :: s) = true) :
    noDigitRange s = true := by
  match s, h with
  | [], _ => rfl
  | [_], _ => rfl
  | a :: b :: rest, h =>
    unfold noDigitRange at h
    simp only [Bool.and_eq_true] at h
    exact h.2

theorem rangeHere_digit_cons (c d : Char) (x : Str) (hc : c.isDigit = true)
    (hd : d.isDigit = true) :
    rangeHere (c :: d :: x) = (rangeHere (d :: x)).map (fun m => c :: m) := by
  unfold rangeHere
  simp only [List.takeWhile_cons, List.dropWhile_cons, hc, hd, if_true]
  cases hdw : List.dropWhile Char.isDigit x with
  | nil => rfl
  | cons dash t =>
    simp only [List.isEmpty_cons, Bool.not_false, Bool.true_and]
    split <;> simp

theorem rangeHere_none (s rest : Str) (h : noDigitRange s = true) :
    rangeHere (s ++ '\n' :: rest) = none := by
  induction s with
  | nil =>
    unfold rangeHere
    have : Char.isDigit '\n' = false := by decide
    simp [List.takeWhile_cons, List.dropWhile_cons, this]
  | cons c s ih =>
    have ih' := ih (noDigitRange_tail h)
    by_cases hc : c.isDigit = true
    · match s, h, ih' with
      | [], _, _ =>
        unfold rangeHere
        have h1 : Char.isDigit '\n' = false := by decide
        have h2 : isDash '\n' = false := by decide
        simp [List.takeWhile_cons, List.dropWhile_cons, hc, h1, h2]
      | d :: s', h, ih' =>
        by_cases hd : d.isDigit = true
        · rw [List.cons_append, List.cons_append, rangeHere_digit_cons c d _ hc hd]
          rw [List.cons_append] at ih'
          rw [ih']; rfl
        · have hd' : d.isDigit = false := by simpa using hd
          unfold rangeHere
          simp only [List.cons_append, List.takeWhile_cons, List.dropWhile_cons, hc, hd',
            if_true]
          match s', h with
          | [], _ =>
            have h1 : Char.isDigit '\n' = false := by decide
            simp [List.takeWhile_cons, h1]
          | e :: s'', h =>
            unfold noDigitRange at h
            simp only [Bool.and_eq_true, Bool.not_eq_true', hc, Bool.true_and] at h
            have h3 := h.1
            by_cases he : e.isDigit = true
            · rw [he, Bool.and_true] at h3
              simp [h3]
            · have he' : e.isDigit = false := by simpa using he
              simp [List.takeWhile_cons, he']
    · have hc' : c.isDigit = false := by simpa using hc
      unfold rangeHere
      simp [List.takeWhile_cons, hc']

theorem rangeFrom_cons_none (prev : Option Char) (c : Char) (cs : Str)
    (h : rangeHere (c :: cs) = none) :
    rangeFrom prev (c :: cs) = rangeFrom (some c) cs := by
  conv_lhs => unfold rangeFrom
  simp only [h]
  split <;> rfl

theorem rangeFrom_skip (s rest : Str) (prev : Option Char) (h : noDigitRange s = true) :
    rangeFrom prev (s ++ '\n' :: rest) = rangeFrom (some '\n') rest := by
  induction s generalizing prev with
  | nil =>
    have h0 := rangeHere_none [] rest rfl
    rw [List.nil_append] at h0 ⊢
    exact rangeFrom_cons_none prev '\n' rest h0
  | cons c s ih =>
    have h0 := rangeHere_none (c :: s) rest h
    rw [List.cons_append] at h0 ⊢
    rw [rangeFrom_cons_none prev c _ h0]
    exact ih (some c) (noDigitRange_tail h)

theorem acmeBody_eq (P : Str) :
    acmeBody P = "Acme Inc".toList ++ '\n' :: ("We build widgets for everyone".toList ++ '\n' ::
      ("Visit Website".toList ++ '\n' :: ("Raised $2M Seed on Jan 2024".toList ++ '\n' ::
        (P ++ '\n' :: "11-50 employees".toList)))) := rfl

theorem acmeBody_lines (P : Str) (hnl : '\n' ∉ P) (htrim : TrimSpace P = P) :
    trimmedLines (acmeBody P) =
      ["Acme Inc".toList, "We build widgets for everyone".toList, "Visit Website".toList,
        "Raised $2M Seed on Jan 2024".toList, P, "11-50 employees".toList] := by
  unfold trimmedLines
  rw [acmeBody_eq, Split_append_sep _ _ _ (by decide), Split_append_sep _ _ _ (by decide),
    Split_append_sep _ _ _ (by decide), Split_append_sep _ _ _ (by decide),
    Split_append_sep _ _ _ hnl, Split_no_sep _ _ (by decide)]
  simp only [List.map_cons, List.map_nil, htrim]
  have h1 : TrimSpace "Acme Inc".toList = "Acme Inc".toList := by decide
  have h2 : TrimSpace "We build widgets for everyone".toList
      = "We build widgets for everyone".toList := by decide
  have h3 : TrimSpace "Visit Website".toList = "Visit Website".toList := by decide
  have h4 : TrimSpace "Raised $2M Seed on Jan 2024".toList
      = "Raised $2M Seed on Jan 2024".toList := by decide
  have h6 : TrimSpace "11-50 employees".toList = "11-50 employees".toList := by decide
  rw [h1, h2, h3, h4, h6]

theorem acmeBody_teamSize (P : Str) (hP : noDigitRange P = true) :
    teamSizeRegex (acmeBody P) = some "11-50".toList := by
  unfold teamSizeRegex
  rw [acmeBody_eq, rangeFrom_skip _ _ _ (by decide), rangeFrom_skip _ _ _ (by decide),
    rangeFrom_skip _ _ _ (by decide), rangeFrom_skip _ _ _ (by decide),
    rangeFrom_skip _ _ _ hP]
  decide

theorem acme_paragraph_taken (P : Str) (hlen : P.length = 101)
    (h1 : Contains P "Raised".toList = false) (h2 : Contains P "Posted on".toList = false)
    (h3 : Contains P "Explore similar".toList = false) :
    takenAsDescription "Acme Inc".toList acmeHead P = true := by
  have hne : (P != "Acme Inc".toList) = true := by
    simp only [bne_iff_ne, ne_eq]
    intro h
    rw [h] at hlen
    revert hlen
    decide
  have hlong : longParagraph P = true := by
    unfold longParagraph
    have := length_le_len P
    rw [h1, h2, h3]
    simp only [Bool.not_false, Bool.and_true, decide_eq_true_eq]
    omega
  have hpo : passedOver "Acme Inc".toList acmeHead P = false := by
    unfold passedOver
    have : (firstTagline "Acme Inc".toList acmeHead == []) = false := by decide
    rw [this]; simp
  unfold takenAsDescription
  rw [hne, hlong, hpo]; rfl

theorem acme_scan (P : Str) (hlen : P.length = 101)
    (h1 : Contains P "Raised".toList = false) (h2 : Contains P "Posted on".toList = false)
    (h3 : Contains P "Explore similar".toList = false) :
    firstDescription "Acme Inc".toList [] (acmeHead ++ [P, "11-50 employees".toList]) = some P ∧
    scanned "Acme Inc".toList [] (acmeHead ++ [P, "11-50 employees".toList])
      = acmeHead ++ [P] := by
  have e1 : takenAsDescription "Acme Inc".toList [] "Acme Inc".toList = false := by decide
  have e2 : takenAsDescription "Acme Inc".toList ([] ++ ["Acme Inc".toList])
      "We build widgets for everyone".toList = false := by decide
  have e3 : takenAsDescription "Acme Inc".toList
      ([] ++ ["Acme Inc".toList] ++ ["We build widgets for everyone".toList])
      "Visit Website".toList = false := by decide
  have e4 : takenAsDescription "Acme Inc".toList
      ([] ++ ["Acme Inc".toList] ++ ["We build widgets for everyone".toList]
        ++ ["Visit Website".toList])
      "Raised $2M Seed on Jan 2024".toList = false := by decide
  have e5 : takenAsDescription "Acme Inc".toList
      ([] ++ ["Acme Inc".toList] ++ ["We build widgets for everyone".toList]
        ++ ["Visit Website".toList] ++ ["Raised $2M Seed on Jan 2024".toList]) P = true :=
    acme_paragraph_taken P hlen h1 h2 h3
  constructor
  · show firstDescription "Acme Inc".toList [] ("Acme Inc".toList ::
      "We build widgets for everyone".toList :: "Visit Website".toList ::
      "Raised $2M Seed on Jan 2024".toList :: P :: ["11-50 employees".toList]) = some P
    rw [firstDescription, if_neg (by rw [e1]; simp), firstDescription,
      if_neg (by rw [e2]; simp), firstDescription, if_neg (by rw [e3]; simp),
      firstDescription, if_neg (by rw [e4]; simp), firstDescription, if_pos e5]
  · show scanned "Acme Inc".toList [] ("Acme Inc".toList ::
      "We build widgets for everyone".toList :: "Visit Website".toList ::
      "Raised $2M Seed on Jan 2024".toList :: P :: ["11-50 employees".toList]) = _
    rw [scanned, if_neg (by rw [e1]; simp), scanned,
      if_neg (by rw [e2]; simp), scanned, if_neg (by rw [e3]; simp),
      scanned, if_neg (by rw [e4]; simp), scanned, if_pos e5]
    rfl

/-- Claim C6, amended. Let the title yield the name "Acme Inc" and the body be the lines
"Acme Inc", "We build widgets for everyone", "Visit Website", "Raised $2M Seed on Jan 2024",
`P`, "11-50 employees" joined by line feeds, where `P` has 101 characters, is a single line
without leading or trailing white space, holds none of "Raised", "Posted on",
"Explore similar" and no digit range. Then tagline, funding announcement, description and
team size are "We build widgets for everyone", "Raised $2M Seed on Jan 2024", `P`, "11-50". -/
theorem parseCompanyData_acme (now : Time) (slug : Str) (raw : RawDetailContent) (P : Str)
    (hname : TrimSuffix raw.title " | startups.gallery".toList = "Acme Inc".toList)
    (hbody : raw.bodyText = acmeBody P)
    (hlen : P.length = 101)
    (hline : '\n' ∉ P)
    (htrim : TrimSpace P = P)
    (h1 : Contains P "Raised".toList = false)
    (h2 : Contains P "Posted on".toList = false)
    (h3 : Contains P "Explore similar".toList = false)
    (hrange : noDigitRange P = true) :
    (parseCompanyData now slug raw).Tagline = "We build widgets for everyone".toList ∧
    (parseCompanyData now slug raw).FundingAnnouncement = "Raised $2M Seed on Jan 2024".toList ∧
    (parseCompanyData now slug raw).Description = P ∧
    (parseCompanyData now slug raw).TeamSize = "11-50".toList := by
  obtain ⟨_, _, hD, hT, hF⟩ := parseCompanyData_scan now slug raw
  have hL : trimmedLines raw.bodyText = acmeHead ++ [P, "11-50 employees".toList] := by
    rw [hbody, acmeBody_lines P hline htrim]; rfl
  obtain ⟨s1, s2⟩ := acme_scan P hlen h1 h2 h3
  rw [hname, hL] at hD hT hF
  rw [s1] at hD
  rw [s2] at hT hF
  have t0 : firstTagline "Acme Inc".toList acmeHead
      = "We build widgets for everyone".toList := by decide
  have f0 : firstFunding "Acme Inc".toList acmeHead
      = "Raised $2M Seed on Jan 2024".toList := by decide
  refine ⟨?_, ?_, hD, ?_⟩
  · rw [hT, firstTagline_snoc, t0]
    rw [if_pos (by decide)]
  · rw [hF, firstFunding_snoc, f0]
    rw [if_pos (by decide)]
  · apply parseCompanyData_TeamSize
    rw [hbody]
    exact acmeBody_teamSize P hrange

/-- Claim C6, amended, on a concrete paragraph of 101 characters. -/
theorem parseCompanyData_acme_witness :
    acmeParagraph.length = 101 ∧
    (parseCompanyData 0 "acme-inc".toList (acmeIncPage acmeParagraph)).Tagline
      = "We build widgets for everyone".toList ∧
    (parseCompanyData 0 "acme-inc".toList (acmeIncPage acmeParagraph)).FundingAnnouncement
      = "Raised $2M Seed on Jan 2024".toList ∧
    (parseCompanyData 0 "acme-inc".toList (acmeIncPage acmeParagraph)).Description
      = acmeParagraph ∧
    (parseCompanyData 0 "acme-inc".toList (acmeIncPage acmeParagraph)).TeamSize
      = "11-50".toList :=
  ⟨by decide, parseCompanyData_acme 0 "acme-inc".toList (acmeIncPage acmeParagraph) acmeParagraph
    (by decide) rfl (by decide) (by decide) (by decide) (by decide) (by decide) (by decide)
    (by decide)⟩

/-- Claim C6 as stated fails: the paragraph `paddedParagraph` has 101 characters, none of
the markers and no digit range, but it starts with a blank; the line loop trims it to 100
bytes and the description stays empty. -/
theorem parseCompanyData_acme_padded_paragraph :
    paddedParagraph.length = 101 ∧
    Contains paddedParagraph "Raised".toList = false ∧
    Contains paddedParagraph "Posted on".toList = false ∧
    Contains paddedParagraph "Explore similar".toList = false ∧
    noDigitRange paddedParagraph = true ∧
    (parseCompanyData 0 "acme-inc".toList (acmeIncPage paddedParagraph)).Name
      = "Acme Inc".toList ∧
    (parseCompanyData 0 "acme-inc".toList (acmeIncPage paddedParagraph)).Description = [] ∧
    (parseCompanyData 0 "acme-inc".toList (acmeIncPage paddedParagraph)).Description
      ≠ paddedParagraph := by
  decide
/-! ## What the line scan captures -/

theorem scanned_prefix (n : Str) (L before : List Str) : scanned n before L <+: L := by
  induction L generalizing before with
  | nil => simp [scanned]
  | cons l ls ih =>
    unfold scanned
    split
    · exact ⟨ls, rfl⟩
    · exact (List.prefix_cons_inj l).2 (ih _)

theorem firstDescription_scanned (n : Str) (L before : List Str) :
    firstDescription n before (scanned n before L) = firstDescription n before L := by
  induction L generalizing before with
  | nil => simp [scanned]
  | cons l ls ih =>
    unfold scanned
    by_cases h : takenAsDescription n before l = true
    · rw [if_pos h]
      simp [firstDescription, h]
    · rw [if_neg h]
      simp only [firstDescription, if_neg h]
      exact ih _

theorem firstDescription_mem {n : Str} {L before : List Str} {d : Str}
    (h : firstDescription n before L = some d) : d ∈ L := by
  induction L generalizing before with
  | nil => simp [firstDescription] at h
  | cons l ls ih =>
    unfold firstDescription at h
    split at h
    · cases h; exact List.mem_cons_self _ _
    · exact List.mem_cons_of_mem _ (ih h)

theorem afterName_not_mem {n : Str} {L : List Str} (h : n ∉ L) : afterName n L = [] := by
  induction L with
  | nil => rfl
  | cons b bs ih =>
    have hb : ¬ b = n := fun hb => h (by simp [hb])
    simp only [afterName, if_neg hb]
    exact ih (fun hm => h (List.mem_cons_of_mem _ hm))

theorem afterName_append (n : Str) (pre suf : List Str) (h : n ∈ pre) :
    afterName n (pre ++ suf) = afterName n pre ++ suf := by
  induction pre with
  | nil => simp at h
  | cons b bs ih =>
    by_cases hb : b = n
    · simp [afterName, hb]
    · have : n ∈ bs := by
        rcases List.mem_cons.1 h with h1 | h1
        · exact absurd h1.symm hb
        · exact h1
      rw [List.cons_append]
      simp only [afterName, if_neg hb]
      exact ih this

theorem afterName_mem_append {n x : Str} {pre : List Str} (suf : List Str)
    (h : x ∈ afterName n pre) :
    x ∈ afterName n (pre ++ suf) := by
  by_cases hn : n ∈ pre
  · rw [afterName_append n pre suf hn]
    exact List.mem_append_left _ h
  · rw [afterName_not_mem hn] at h
    simp at h

theorem firstTagline_mem (n : Str) (X : List Str) :
    firstTagline n X = [] ∨ firstTagline n X ∈ afterName n X := by
  unfold firstTagline
  cases h : (afterName n X).find? (taglineCandidate n) with
  | none => left; rfl
  | some t => right; exact List.mem_of_find?_eq_some h

theorem firstFunding_mem (n : Str) (X : List Str) :
    firstFunding n X = [] ∨ firstFunding n X ∈ X := by
  unfold firstFunding
  cases h : X.find? (fun l => l != n && fundingAnnouncementRegex l) with
  | none => left; rfl
  | some t => right; exact List.mem_of_find?_eq_some h

/-- Claim C7, amended. The tagline is empty or is a trimmed body line that comes after the
first line equal to the extracted name, and it is empty when no trimmed line equals the
name. The funding announcement and the description are each empty or equal to some trimmed
body line; the name line does not gate them. -/
theorem parseCompanyData_capture_sources (now : Time) (slug : Str) (raw : RawDetailContent) :
    ((parseCompanyData now slug raw).Tagline = [] ∨
      (parseCompanyData now slug raw).Tagline
        ∈ afterName (parseCompanyData now slug raw).Name (trimmedLines raw.bodyText)) ∧
    ((parseCompanyData now slug raw).Name ∉ trimmedLines raw.bodyText →
      (parseCompanyData now slug raw).Tagline = []) ∧
    ((parseCompanyData now slug raw).FundingAnnouncement = [] ∨
      (parseCompanyData now slug raw).FundingAnnouncement ∈ trimmedLines raw.bodyText) ∧
    ((parseCompanyData now slug raw).Description = [] ∨
      (parseCompanyData now slug raw).Description ∈ trimmedLines raw.bodyText) := by
  obtain ⟨hN, _, hD, hT, hF⟩ := parseCompanyData_scan now slug raw
  rw [hN, hD, hT, hF]
  generalize TrimSuffix raw.title " | startups.gallery".toList = n
  generalize trimmedLines raw.bodyText = L
  obtain ⟨rest, hrest⟩ := scanned_prefix n L []
  have hT' : firstTagline n (scanned n [] L) = [] ∨
      firstTagline n (scanned n [] L) ∈ afterName n L := by
    rcases firstTagline_mem n (scanned n [] L) with h | h
    · exact Or.inl h
    · right
      have := afterName_mem_append rest h
      rwa [hrest] at this
  refine ⟨hT', ?_, ?_, ?_⟩
  · intro hn
    rcases hT' with h | h
    · exact h
    · rw [afterName_not_mem hn] at h
      simp at h
  · rcases firstFunding_mem n (scanned n [] L) with h | h
    · exact Or.inl h
    · right
      have := List.mem_append_left rest h
      rwa [hrest] at this
  · cases h : firstDescription n [] L with
    | none => left; rfl
    | some d => right; exact firstDescription_mem h

/-- Claim C7, amended, on the page of the worked example: the tagline is one of the lines
after the name line. -/
theorem parseCompanyData_capture_sources_witness :
    (parseCompanyData 0 "acme-inc".toList (acmeIncPage acmeParagraph)).Tagline
      ∈ afterName (parseCompanyData 0 "acme-inc".toList (acmeIncPage acmeParagraph)).Name
          (trimmedLines (acmeIncPage acmeParagraph).bodyText) :=
  (parseCompanyData_capture_sources 0 "acme-inc".toList (acmeIncPage acmeParagraph)).1.resolve_left
    (by decide)

/-- Claim C7 as stated fails: no trimmed line equals the name "Acme", yet a long first line
is captured as the description, and a funding line is captured as the funding
announcement. -/
theorem parseCompanyData_captures_without_name_line :
    "Acme".toList ∉ trimmedLines (List.replicate 101 'a') ∧
    (parseCompanyData 0 "acme".toList (acmePage (List.replicate 101 'a'))).Name
      = "Acme".toList ∧
    (parseCompanyData 0 "acme".toList (acmePage (List.replicate 101 'a'))).Description
      = List.replicate 101 'a' ∧
    "Acme".toList ∉ trimmedLines "Raised $2M Seed on Jan 2024".toList ∧
    (parseCompanyData 0 "acme".toList
        (acmePage "Raised $2M Seed on Jan 2024".toList)).FundingAnnouncement
      = "Raised $2M Seed on Jan 2024".toList := by
  decide

/-- Claim C8, amended. The description is the first trimmed body line that differs from the
name, is longer than 100 bytes, holds none of "Raised", "Posted on", "Explore similar", and
is not passed over by the tagline filter (a line with "Visit", "View", "Backed by" or
"Get Updates" met after the name line while no tagline is captured yet); it is empty when
there is no such line. Two pages with the same title whose trimmed lines agree up to and
including that line have the same tagline, funding announcement and description. -/
theorem parseCompanyData_description (now : Time) (slug : Str) (raw : RawDetailContent) :
    (parseCompanyData now slug raw).Description
      = (firstDescription (parseCompanyData now slug raw).Name []
          (trimmedLines raw.bodyText)).getD [] ∧
    ∀ (now' : Time) (slug' : Str) (raw' : RawDetailContent),
      raw'.title = raw.title →
      scanned (parseCompanyData now slug raw).Name [] (trimmedLines raw'.bodyText)
        = scanned (parseCompanyData now slug raw).Name [] (trimmedLines raw.bodyText) →
      (parseCompanyData now' slug' raw').Tagline = (parseCompanyData now slug raw).Tagline ∧
      (parseCompanyData now' slug' raw').FundingAnnouncement
        = (parseCompanyData now slug raw).FundingAnnouncement ∧
      (parseCompanyData now' slug' raw').Description
        = (parseCompanyData now slug raw).Description := by
  obtain ⟨hN, _, hD, hT, hF⟩ := parseCompanyData_scan now slug raw
  refine ⟨by rw [hN]; exact hD, ?_⟩
  intro now' slug' raw' htitle hsc
  obtain ⟨_, _, hD', hT', hF'⟩ := parseCompanyData_scan now' slug' raw'
  rw [hN] at hsc
  rw [htitle] at hD' hT' hF'
  rw [hT, hF, hD, hT', hF', hD', hsc]
  refine ⟨rfl, rfl, ?_⟩
  rw [← firstDescription_scanned _ (trimmedLines raw'.bodyText), hsc, firstDescription_scanned]

/-- Claim C8, amended, on the page of the worked example and on the same page with more
lines after the paragraph: the lines scanned are the same, and so are the three fields. -/
theorem parseCompanyData_description_witness :
    (parseCompanyData 0 "acme-inc".toList (acmeIncPage acmeParagraph)).Description
      = acmeParagraph ∧
    (parseCompanyData 7 "acme".toList acmeIncLongerPage).Tagline
      = (parseCompanyData 0 "acme-inc".toList (acmeIncPage acmeParagraph)).Tagline ∧
    (parseCompanyData 7 "acme".toList acmeIncLongerPage).FundingAnnouncement
      = (parseCompanyData 0 "acme-inc".toList (acmeIncPage acmeParagraph)).FundingAnnouncement ∧
    (parseCompanyData 7 "acme".toList acmeIncLongerPage).Description
      = (parseCompanyData 0 "acme-inc".toList (acmeIncPage acmeParagraph)).Description :=
  ⟨by decide,
    (parseCompanyData_description 0 "acme-inc".toList (acmeIncPage acmeParagraph)).2
      7 "acme".toList acmeIncLongerPage rfl (by decide)⟩

/-- Claim C8 as stated fails: after the name line, a line of 106 characters with none of the
three markers but with "Visit" is not taken, and the description stays empty; and a line of
60 characters (120 bytes) is taken as the description. -/
theorem parseCompanyData_description_passed_over :
    trimmedLines ("Acme\n".toList ++ visitLine) = ["Acme".toList, visitLine] ∧
    100 < visitLine.length ∧
    Contains visitLine "Raised".toList = false ∧
    Contains visitLine "Posted on".toList = false ∧
    Contains visitLine "Explore similar".toList = false ∧
    (parseCompanyData 0 "acme".toList (acmePage ("Acme\n".toList ++ visitLine))).Description
      = [] ∧
    trimmedLines accentLine = [accentLine] ∧
    accentLine.length = 60 ∧
    (parseCompanyData 0 "acme".toList (acmePage accentLine)).Description = accentLine := by
  decide

/-- Claim C9, amended. The tagline is the first line, among the trimmed body lines scanned
after the first name line and up to the line that ends the scan, that differs from the
name, is not empty, is not the lone separator "·", holds none of "Visit", "View", "Raised",
"Backed by", "Get Updates", and whose length in bytes is strictly between 1 and 100; it is
empty when there is no such line. -/
theorem parseCompanyData_tagline (now : Time) (slug : Str) (raw : RawDetailContent) :
    (parseCompanyData now slug raw).Tagline
      = firstTagline (parseCompanyData now slug raw).Name
          (scanned (parseCompanyData now slug raw).Name [] (trimmedLines raw.bodyText)) := by
  obtain ⟨hN, _, _, hT, _⟩ := parseCompanyData_scan now slug raw
  rw [hN]; exact hT

/-- Claim C9, amended, on the page of the worked example: the first candidate after the
name line is "We build widgets for everyone". -/
theorem parseCompanyData_tagline_witness :
    firstTagline "Acme Inc".toList
        (scanned "Acme Inc".toList [] (trimmedLines (acmeIncPage acmeParagraph).bodyText))
      = "We build widgets for everyone".toList ∧
    (parseCompanyData 0 "acme-inc".toList (acmeIncPage acmeParagraph)).Tagline
      = firstTagline (parseCompanyData 0 "acme-inc".toList (acmeIncPage acmeParagraph)).Name
          (scanned (parseCompanyData 0 "acme-inc".toList (acmeIncPage acmeParagraph)).Name []
            (trimmedLines (acmeIncPage acmeParagraph).bodyText)) :=
  ⟨by decide, parseCompanyData_tagline 0 "acme-inc".toList (acmeIncPage acmeParagraph)⟩

/-- Claim C9 as stated fails: a second line equal to the name "Acme" meets every condition
of the claim but is not taken; and the line "é", one character long, is taken (it has 2
bytes). -/
theorem parseCompanyData_tagline_name_repeated :
    trimmedLines "Acme\nAcme".toList = ["Acme".toList, "Acme".toList] ∧
    (parseCompanyData 0 "acme".toList (acmePage "Acme\nAcme".toList)).Name = "Acme".toList ∧
    (parseCompanyData 0 "acme".toList (acmePage "Acme\nAcme".toList)).Tagline = [] ∧
    trimmedLines "Acme\né".toList = ["Acme".toList, "é".toList] ∧
    "é".toList.length = 1 ∧
    (parseCompanyData 0 "acme".toList (acmePage "Acme\né".toList)).Tagline = "é".toList := by
  decide
/-! ## The category anchors -/

theorem foldl_last_anchor {σ : Type} (get : σ → Str) (step : σ → Link → σ) (p : Str → Bool)
    (hstep : ∀ s k, get (step s k) = if p k.href = true then TrimSpace k.text else get s)
    (links : List Link) (s : σ) :
    get (links.foldl step s) =
      ((links.reverse.find? (fun k => p k.href)).map (fun k => TrimSpace k.text)).getD
        (get s) := by
  induction links generalizing s with
  | nil => rfl
  | cons k ks ih =>
    rw [List.foldl_cons, ih, List.reverse_cons, List.find?_append, hstep]
    cases hf : ks.reverse.find? (fun k => p k.href) with
    | some t => simp
    | none =>
      by_cases hp : p k.href = true
      · simp [hp]
      · simp [hp]

theorem linkStep_Location (st : Startup) (k : Link) :
    (linkStep st k).Location =
      if isLocationHref k.href = true then TrimSpace k.text else st.Location := by
  unfold linkStep isLocationHref
  simp only []
  split_ifs <;> rfl

theorem linkStep_FundingStage (st : Startup) (k : Link) :
    (linkStep st k).FundingStage =
      if isStageHref k.href = true then TrimSpace k.text else st.FundingStage := by
  unfold linkStep isStageHref
  simp only []
  split_ifs <;> simp_all

theorem linkStep_Industry (st : Startup) (k : Link) :
    (linkStep st k).Industry =
      if isIndustryHref k.href = true then TrimSpace k.text else st.Industry := by
  unfold linkStep isIndustryHref
  simp only []
  split_ifs <;> simp_all

theorem linkStep_WorkType (st : Startup) (k : Link) :
    (linkStep st k).WorkType =
      if isWorkTypeHref k.href = true then TrimSpace k.text else st.WorkType := by
  unfold linkStep isWorkTypeHref
  simp only []
  split_ifs <;> simp_all

theorem category_frame_banner (st : Startup) (images : List Image) :
    (bannerStep st images).Location = st.Location ∧
    (bannerStep st images).FundingStage = st.FundingStage ∧
    (bannerStep st images).Industry = st.Industry ∧
    (bannerStep st images).WorkType = st.WorkType := by
  unfold bannerStep; split <;> simp

theorem category_frame_logo (st : Startup) (images : List Image) :
    (logoStep st images).Location = st.Location ∧
    (logoStep st images).FundingStage = st.FundingStage ∧
    (logoStep st images).Industry = st.Industry ∧
    (logoStep st images).WorkType = st.WorkType := by
  unfold logoStep; split <;> simp

theorem category_frame_teamSize (st : Startup) (bodyText : Str) :
    (teamSizeStep st bodyText).Location = st.Location ∧
    (teamSizeStep st bodyText).FundingStage = st.FundingStage ∧
    (teamSizeStep st bodyText).Industry = st.Industry ∧
    (teamSizeStep st bodyText).WorkType = st.WorkType := by
  unfold teamSizeStep; split <;> simp

theorem category_frame_lines (raws : List Str) (fn : Bool) (st : Startup) :
    (linesLoop raws fn st).Location = st.Location ∧
    (linesLoop raws fn st).FundingStage = st.FundingStage ∧
    (linesLoop raws fn st).Industry = st.Industry ∧
    (linesLoop raws fn st).WorkType = st.WorkType := by
  rw [linesLoop_frame raws fn st]
  exact ⟨rfl, rfl, rfl, rfl⟩

/-- Claim C10, amended. The location is the trimmed text of the last anchor whose href holds
"/categories/locations/". The funding stage, the industry and the work type are the trimmed
text of the last anchor whose href holds the fragment of the field and none of the fragments
tested before it in the chain locations, stages, industries, work-type. Each field is empty
when there is no such anchor, whatever the text of the anchors. -/
theorem parseCompanyData_categories (now : Time) (slug : Str) (raw : RawDetailContent) :
    (parseCompanyData now slug raw).Location = lastAnchorText isLocationHref raw.links ∧
    (parseCompanyData now slug raw).FundingStage = lastAnchorText isStageHref raw.links ∧
    (parseCompanyData now slug raw).Industry = lastAnchorText isIndustryHref raw.links ∧
    (parseCompanyData now slug raw).WorkType = lastAnchorText isWorkTypeHref raw.links := by
  obtain ⟨a1, a2, a3, a4⟩ := category_frame_banner (newStartup now slug raw.title) raw.images
  obtain ⟨b1, b2, b3, b4⟩ :=
    category_frame_logo (bannerStep (newStartup now slug raw.title) raw.images) raw.images
  obtain ⟨c1, c2, c3, c4⟩ := category_frame_lines (Split raw.bodyText '\n') false
    (linksLoop (logoStep (bannerStep (newStartup now slug raw.title) raw.images) raw.images)
      raw.links)
  obtain ⟨d1, d2, d3, d4⟩ := category_frame_teamSize
    (linesLoop (Split raw.bodyText '\n') false
      (linksLoop (logoStep (bannerStep (newStartup now slug raw.title) raw.images) raw.images)
        raw.links)) raw.bodyText
  unfold parseCompanyData lastAnchorText
  simp only []
  refine ⟨?_, ?_, ?_, ?_⟩
  · rw [d1, c1, linksLoop, foldl_last_anchor Startup.Location linkStep isLocationHref
      linkStep_Location, b1, a1]; rfl
  · rw [d2, c2, linksLoop, foldl_last_anchor Startup.FundingStage linkStep isStageHref
      linkStep_FundingStage, b2, a2]; rfl
  · rw [d3, c3, linksLoop, foldl_last_anchor Startup.Industry linkStep isIndustryHref
      linkStep_Industry, b3, a3]; rfl
  · rw [d4, c4, linksLoop, foldl_last_anchor Startup.WorkType linkStep isWorkTypeHref
      linkStep_WorkType, b4, a4]; rfl

/-- Claim C10, amended, on a page with two location anchors: the last one wins, and its
text is trimmed. -/
theorem parseCompanyData_categories_witness :
    lastAnchorText isLocationHref anchorsPage.links = "Remote".toList ∧
    lastAnchorText isStageHref anchorsPage.links = "Seed".toList ∧
    (parseCompanyData 0 "acme".toList anchorsPage).Location
      = lastAnchorText isLocationHref anchorsPage.links ∧
    (parseCompanyData 0 "acme".toList anchorsPage).FundingStage
      = lastAnchorText isStageHref anchorsPage.links ∧
    (parseCompanyData 0 "acme".toList anchorsPage).Industry
      = lastAnchorText isIndustryHref anchorsPage.links ∧
    (parseCompanyData 0 "acme".toList anchorsPage).WorkType
      = lastAnchorText isWorkTypeHref anchorsPage.links :=
  ⟨by decide, by decide, parseCompanyData_categories 0 "acme".toList anchorsPage⟩

/-- Claim C10 as stated fails: the href of the only anchor holds "/categories/stages/", but
it also holds "/categories/locations/", so the text goes to the location and the funding
stage stays empty. -/
theorem parseCompanyData_stage_shadowed :
    Contains "https://startups.gallery/categories/locations/remote?from=/categories/stages/seed".toList
      "/categories/stages/".toList = true ∧
    (parseCompanyData 0 "acme".toList
      { title := "Acme".toList, bodyText := [],
        links := [⟨"Seed".toList,
          "https://startups.gallery/categories/locations/remote?from=/categories/stages/seed".toList⟩],
        images := [] }).FundingStage = [] ∧
    (parseCompanyData 0 "acme".toList
      { title := "Acme".toList, bodyText := [],
        links := [⟨"Seed".toList,
          "https://startups.gallery/categories/locations/remote?from=/categories/stages/seed".toList⟩],
        images := [] }).Location = "Seed".toList := by
  decide
end StartupsTerminal
